import Mathlib

/-!
Verification of the in-memory FAT-style single-volume storage simulator
(`src/main.py`).  The program keeps three process-wide structures:

* `FAT`  — a list of 4096 per-unit state words (`FREE`, `FAT_RESERVED`,
  `ROOT_RESERVED`, `EOF`, `BAD`, or a chain link holding the next unit index);
* `ROOT` — the directory: a list of `File` entries;
* `HDD`  — a `bytearray` of 65536 bytes.

We embed these as an explicit `State` record and translate each handler
(`handleCREATE`, `handleDELETE`, `handleRENAME`, `handleCOPY`, `handleDIR`)
into a pure function on `State`.  Python strings become `List Char`
(equality, `len`, and `[:n]` slicing coincide), Python `bytes`/`bytearray`
become `List Nat`, and Python slice reads/writes become clamped
`take`/`drop` operations — in particular, `bytearray` slice assignment with
a block of a different length really resizes the buffer, and the embedding
reproduces that behaviour.  The two unbounded `while` loops (freeing a
chain in DELETE, reading a chain in COPY) are embedded with an explicit
fuel argument; a result of `none` means the loop has not terminated within
the given number of iterations (or hit an out-of-range index, which in
Python raises).
-/

set_option maxRecDepth 10000

namespace PSO

/-! ### Constants (`src/main.py` lines 5–18) -/

def UA : Nat := 16
def TOTAL_UAs : Nat := 4096
def HDD_SIZE : Nat := TOTAL_UAs * UA
def UAs_for_FAT : Nat := 512
def UAs_for_ROOT : Nat := 64

def FREE : Nat := 0
def FAT_RESERVED : Nat := 1
def ROOT_RESERVED : Nat := 2
def EOF : Nat := 3
def BAD : Nat := 4

/-! ### Python-primitive helpers -/

/-- Python `range(a, b)` as a list (for `a ≤ b`). -/
def pyRange (a b : Nat) : List Nat := List.range' a (b - a)

/-- Python list/bytes slice read `l[start:stop]` (indices clamped). -/
def pySlice (l : List Nat) (start stop : Nat) : List Nat :=
  (l.drop start).take (stop - start)

/-- Python `bytearray` slice assignment `l[start:stop] = block`
(for `start ≤ stop`; indices clamped).  If `block` has a different
length than the slice, the buffer is resized. -/
def sliceAssign (l : List Nat) (start stop : Nat) (block : List Nat) : List Nat :=
  l.take start ++ block ++ l.drop stop

/-! ### The `File` class (`src/main.py` lines 30–39) -/

structure File where
  name : List Char
  extension : List Char
  size : Nat
  startUA : Nat
  attr : Nat
deriving DecidableEq

instance : Inhabited File := ⟨⟨[], [], 0, 0, 0⟩⟩

/-- `File.__init__`: truncates `name[:8]`, `extension[:3]`, masks
`size & 0xFFFF`, `startUA & 0xFFFF`, `attr & 0xFF`. -/
def File.make (name extension : List Char) (size startUA attr : Nat) : File :=
  { name := name.take 8
    extension := extension.take 3
    size := size % 65536
    startUA := startUA % 65536
    attr := attr % 256 }

/-! ### Global state and its initialization (`src/main.py` lines 20–27) -/

structure State where
  FAT : List Nat
  ROOT : List File
  HDD : List Nat
deriving DecidableEq

/-- The two reservation loops `for ind in range(...): FAT[ind] = v`. -/
def markRange (fat : List Nat) (a b v : Nat) : List Nat :=
  (pyRange a b).foldl (fun t ind => t.set ind v) fat

def initFAT : List Nat :=
  markRange
    (markRange (List.replicate TOTAL_UAs FREE) 0 UAs_for_FAT FAT_RESERVED)
    UAs_for_FAT (UAs_for_FAT + UAs_for_ROOT) ROOT_RESERVED

def initHDD : List Nat := List.replicate HDD_SIZE 0

def initState : State := ⟨initFAT, [], initHDD⟩

/-! ### Helper functions (`src/main.py` lines 44–100) -/

/-- `generateContent(length, mode)` (lines 44–57).  Content bytes are the
character codes of the repeated source alphabet, truncated to `length`. -/
def generateContent (length : Nat) (mode : List Char) : List Nat :=
  let source? : Option (List Nat) :=
    if mode = "-ALFA".toList then
      some ("abcdefghijklmnopqrstuvwxyz".toList.map Char.toNat)
    else if mode = "-NUM".toList then
      some ("0123456789".toList.map Char.toNat)
    else if mode = "-HEX".toList then
      some ("0123456789ABCDEF".toList.map Char.toNat)
    else none
  match source? with
  | none => []
  | some source =>
      ((List.replicate (length / source.length + 1) source).flatten).take length

/-- `findFileIndex(name, extension)` (lines 73–77): index of the first
directory entry whose key matches. -/
def findFileIndex (root : List File) (name extension : List Char) : Option Nat :=
  root.findIdx? (fun f => f.name == name && f.extension == extension)

/-- The free-unit scan on line 82 of `allocateUAsAndWrite`:
`[i for i in range(UAs_for_FAT + UAs_for_ROOT, TOTAL_UAs) if FAT[i] == FREE]`.
(`FAT` always has length `TOTAL_UAs`, so the `getD` default is never read.) -/
def findFreeUAs (fat : List Nat) : List Nat :=
  (pyRange (UAs_for_FAT + UAs_for_ROOT) TOTAL_UAs).filter
    (fun i => fat.getD i BAD == FREE)

/-- The write loop `for i in range(nr_UAs)` of `allocateUAsAndWrite`
(lines 88–98), iterating over the list of loop indices. -/
def allocWriteLoop (allocated content : List Nat) (nr_UAs : Nat) :
    List Nat → List Nat × List Nat → List Nat × List Nat
  | [], st => st
  | i :: rest, (fat, hdd) =>
      let start := allocated.getD i 0 * UA
      let hdd2 := sliceAssign hdd start (start + UA) (pySlice content (i * UA) ((i + 1) * UA))
      let fat2 :=
        if i < nr_UAs - 1 then fat.set (allocated.getD i 0) (allocated.getD (i + 1) 0)
        else fat.set (allocated.getD i 0) EOF
      allocWriteLoop allocated content nr_UAs rest (fat2, hdd2)

/-- `allocateUAsAndWrite(content, nr_UAs)` (lines 80–100). -/
def allocateUAsAndWrite (content : List Nat) (nr_UAs : Nat) (s : State) :
    Option Nat × State :=
  let free_UAs := findFreeUAs s.FAT
  if free_UAs.length < nr_UAs then (none, s)
  else
    let allocated := free_UAs.take nr_UAs
    let p := allocWriteLoop allocated content nr_UAs (List.range nr_UAs) (s.FAT, s.HDD)
    (some (allocated.getD 0 0), { s with FAT := p.1, HDD := p.2 })

/-! ### Command handlers (`src/main.py` lines 105–269).
The REPL tokenization and `name.extension` splitting are I/O glue (spec §1);
handlers are embedded from the point where name, extension and the other
arguments are in hand. -/

inductive Result where
  | ok
  | alreadyExists
  | notFound
  | invalidMode
  | insufficientSpace
deriving DecidableEq

/-- `math.ceil(size / UA)` (line 139 / 247). -/
def ceilUAs (size : Nat) : Nat := (size + UA - 1) / UA

/-- `handleDIR` (lines 105–115): read-only listing of the directory. -/
def handleDIR (s : State) : List (List Char × List Char × Nat) :=
  s.ROOT.map (fun f => (f.name, f.extension, f.size))

/-- `handleCREATE` (lines 118–155). -/
def handleCREATE (s : State) (name extension : List Char) (size : Nat)
    (mode : List Char) : State × Result :=
  if (findFileIndex s.ROOT name extension).isSome then (s, .alreadyExists)
  else
    let nr_UAs := ceilUAs size
    let content := generateContent size mode
    if content.isEmpty then (s, .invalidMode)
    else
      match allocateUAsAndWrite content nr_UAs s with
      | (none, s2) => (s2, .insufficientSpace)
      | (some startUA, s2) =>
          ({ s2 with ROOT := s2.ROOT ++ [File.make name extension size startUA 0] }, .ok)

/-- The chain-freeing `while startUA != EOF` loop of `handleDELETE`
(lines 180–183), with fuel.  `none` means the loop has not finished within
`fuel` iterations (or indexed `FAT` out of range, which raises in Python). -/
def freeChainLoop : Nat → Nat → List Nat → Option (List Nat)
  | 0, _, _ => none
  | fuel + 1, startUA, fat =>
      if startUA = EOF then some fat
      else
        match fat.get? startUA with
        | none => none
        | some nextUA =>
            freeChainLoop fuel (if nextUA ≠ EOF then nextUA else EOF)
              (fat.set startUA FREE)

/-- `handleDELETE` (lines 158–186). -/
def handleDELETE (fuel : Nat) (s : State) (name extension : List Char) :
    Option (State × Result) :=
  match findFileIndex s.ROOT name extension with
  | none => some (s, .notFound)
  | some index =>
      match freeChainLoop fuel (s.ROOT.getD index default).startUA s.FAT with
      | none => none
      | some fat2 => some ({ s with FAT := fat2, ROOT := s.ROOT.eraseIdx index }, .ok)

/-- `handleRENAME` (lines 189–213).  Note: the source assigns the new
name and extension verbatim, with no truncation and no duplicate check. -/
def handleRENAME (s : State) (oldName oldExt newName newExt : List Char) :
    State × Result :=
  match findFileIndex s.ROOT oldName oldExt with
  | none => (s, .notFound)
  | some index =>
      let f := s.ROOT.getD index default
      ({ s with ROOT := s.ROOT.set index { f with name := newName, extension := newExt } },
       .ok)

/-- The chain-reading `while currentUA != EOF` loop of `handleCOPY`
(lines 252–259), with fuel. -/
def readChainLoop : Nat → Nat → List Nat → List Nat → Option (List Nat)
  | 0, _, _, _ => none
  | fuel + 1, currentUA, fat, hdd =>
      if currentUA = EOF then some []
      else
        match fat.get? currentUA with
        | none => none
        | some nextUA =>
            (readChainLoop fuel nextUA fat hdd).map
              (fun rest => pySlice hdd (currentUA * UA) (currentUA * UA + UA) ++ rest)

/-- `handleCOPY` (lines 216–269). -/
def handleCOPY (fuel : Nat) (s : State)
    (srcName srcExtension destName destExtension : List Char) :
    Option (State × Result) :=
  match findFileIndex s.ROOT srcName srcExtension with
  | none => some (s, .notFound)
  | some srcIndex =>
      if (findFileIndex s.ROOT destName destExtension).isSome then
        some (s, .alreadyExists)
      else
        let srcFile := s.ROOT.getD srcIndex default
        let nr_UAs := ceilUAs srcFile.size
        match readChainLoop fuel srcFile.startUA s.FAT s.HDD with
        | none => none
        | some content =>
            match allocateUAsAndWrite content nr_UAs s with
            | (none, s2) => some (s2, .insufficientSpace)
            | (some startUA, s2) =>
                some ({ s2 with
                          ROOT := s2.ROOT ++
                            [File.make destName destExtension srcFile.size startUA 0] },
                      .ok)

/-! ### Operations and reachability -/

inductive Op where
  | create (name extension : List Char) (size : Nat) (mode : List Char)
  | delete (name extension : List Char)
  | rename (oldName oldExt newName newExt : List Char)
  | copy (srcName srcExt destName destExt : List Char)
  | dir

/-- One operation applied to the state.  `fuel` bounds the chain walks of
DELETE and COPY; `none` means the operation did not complete.  DIR only
prints and leaves the state as-is. -/
def applyOp (fuel : Nat) : Op → State → Option State
  | .create n e sz m, s => some (handleCREATE s n e sz m).1
  | .delete n e, s => (handleDELETE fuel s n e).map Prod.fst
  | .rename a b c d, s => some (handleRENAME s a b c d).1
  | .copy a b c d, s => (handleCOPY fuel s a b c d).map Prod.fst
  | .dir, s => some s

def Step (s s2 : State) : Prop := ∃ op fuel, applyOp fuel op s = some s2

/-- States reachable from a given state by completed operations. -/
def Reach : State → State → Prop := Relation.ReflTransGen Step

/-! ### Basic facts about the helper primitives -/

theorem mem_pyRange {a b i : Nat} : i ∈ pyRange a b ↔ a ≤ i ∧ i < b := by
  unfold pyRange
  rw [List.mem_range']
  constructor
  · rintro ⟨j, hj, rfl⟩; omega
  · intro h; exact ⟨i - a, by omega, by omega⟩

theorem pyRange_sorted : ∀ (n a : Nat), (List.range' a n).Pairwise (· < ·)
  | 0, _ => List.Pairwise.nil
  | n + 1, a => by
      rw [List.range'_succ]
      refine List.Pairwise.cons (fun m hm => ?_) (pyRange_sorted n (a + 1))
      rcases List.mem_range'.mp hm with ⟨j, hj, rfl⟩
      omega

theorem pyRange_nodup (a b : Nat) : (pyRange a b).Nodup :=
  ((pyRange_sorted _ _).imp (fun h => Nat.ne_of_lt h))

theorem foldl_set_length (v : Nat) :
    ∀ (l : List Nat) (fat : List Nat),
      (l.foldl (fun t j => t.set j v) fat).length = fat.length
  | [], _ => rfl
  | i :: l, fat => by
      simpa [List.foldl_cons] using foldl_set_length v l (fat.set i v)

theorem foldl_set_getD (v d : Nat) :
    ∀ (l : List Nat) (fat : List Nat) (i : Nat),
      (l.foldl (fun t j => t.set j v) fat).getD i d =
        if i ∈ l ∧ i < fat.length then v else fat.getD i d
  | [], fat, i => by simp
  | j :: l, fat, i => by
      rw [List.foldl_cons, foldl_set_getD v d l (fat.set j v) i]
      simp only [List.length_set, List.mem_cons, List.getD_eq_getElem?_getD,
        List.getElem?_set]
      by_cases hlen : i < fat.length
      · by_cases hmem : i ∈ l
        · simp [hmem, hlen]
        · by_cases hij : j = i
          · simp [hmem, hlen, hij]
          · simp [hmem, hlen, hij, Ne.symm hij]
      · have hnone : fat[i]? = none := List.getElem?_eq_none (by omega)
        by_cases hmem : i ∈ l
        · by_cases hij : j = i
          · simp [hmem, hlen, hij, hnone]
          · simp [hmem, hlen, hij, hnone]
        · by_cases hij : j = i
          · simp [hmem, hlen, hij, hnone]
          · simp [hmem, hlen, hij, hnone, Ne.symm hij]

theorem markRange_length (fat : List Nat) (a b v : Nat) :
    (markRange fat a b v).length = fat.length :=
  foldl_set_length v _ fat

theorem markRange_getD (fat : List Nat) (a b v i d : Nat) :
    (markRange fat a b v).getD i d =
      if a ≤ i ∧ i < b ∧ i < fat.length then v else fat.getD i d := by
  rw [markRange, foldl_set_getD]
  simp only [mem_pyRange]
  by_cases h : a ≤ i ∧ i < b ∧ i < fat.length
  · rw [if_pos ⟨⟨h.1, h.2.1⟩, h.2.2⟩, if_pos h]
  · rw [if_neg (by tauto), if_neg h]

theorem initFAT_length : initFAT.length = TOTAL_UAs := by
  rw [initFAT, markRange_length, markRange_length, List.length_replicate]

theorem initFAT_getD (i d : Nat) :
    initFAT.getD i d =
      if i < UAs_for_FAT then FAT_RESERVED
      else if i < UAs_for_FAT + UAs_for_ROOT then ROOT_RESERVED
      else if i < TOTAL_UAs then FREE
      else d := by
  rw [initFAT, markRange_getD, markRange_length, List.length_replicate,
    markRange_getD, List.length_replicate, List.getD_eq_getElem?_getD,
    List.getElem?_replicate]
  simp only [UAs_for_FAT, UAs_for_ROOT, TOTAL_UAs, FAT_RESERVED, ROOT_RESERVED, FREE]
  by_cases h1 : i < 512
  · rw [if_neg (by omega), if_pos (by omega), if_pos h1]
  · by_cases h2 : i < 512 + 64
    · rw [if_pos (by omega), if_neg h1, if_pos h2]
    · by_cases h3 : i < 4096
      · rw [if_neg (by omega), if_neg (by omega), if_pos h3, if_neg h1,
          if_neg h2, if_pos h3]
        rfl
      · rw [if_neg (by omega), if_neg (by omega), if_neg h3, if_neg h1,
          if_neg h2, if_neg h3]
        rfl

theorem sliceAssign_length {l : List Nat} {start : Nat} (stop : Nat)
    (h : start ≤ l.length) (block : List Nat) :
    (sliceAssign l start stop block).length =
      start + block.length + (l.length - stop) := by
  simp [sliceAssign, Nat.min_eq_left h]
  omega

theorem pySlice_length (l : List Nat) (start stop : Nat) :
    (pySlice l start stop).length = min (stop - start) (l.length - start) := by
  simp [pySlice]

theorem mem_findFreeUAs {fat : List Nat} {i : Nat} :
    i ∈ findFreeUAs fat ↔
      UAs_for_FAT + UAs_for_ROOT ≤ i ∧ i < TOTAL_UAs ∧ fat.getD i BAD = FREE := by
  simp [findFreeUAs, List.mem_filter, mem_pyRange, and_assoc]

theorem findFreeUAs_sorted (fat : List Nat) :
    (findFreeUAs fat).Pairwise (· < ·) :=
  List.Pairwise.sublist (List.filter_sublist _) (pyRange_sorted _ _)

theorem findFreeUAs_nodup (fat : List Nat) : (findFreeUAs fat).Nodup :=
  (findFreeUAs_sorted fat).imp (fun h => Nat.ne_of_lt h)

theorem findFreeUAs_length_le (fat : List Nat) :
    (findFreeUAs fat).length ≤ TOTAL_UAs - (UAs_for_FAT + UAs_for_ROOT) := by
  have := List.length_filter_le (fun i => fat.getD i BAD == FREE)
    (pyRange (UAs_for_FAT + UAs_for_ROOT) TOTAL_UAs)
  simpa [findFreeUAs, pyRange] using this

/-- Free units found by the scan are genuine indices of `FAT`:
an out-of-range `getD` would return the default `BAD ≠ FREE`. -/
theorem findFreeUAs_lt_length {fat : List Nat} {i : Nat}
    (h : i ∈ findFreeUAs fat) : i < fat.length := by
  rcases mem_findFreeUAs.mp h with ⟨-, -, hfree⟩
  by_contra hge
  rw [List.getD_eq_getElem?_getD, List.getElem?_eq_none (by omega)] at hfree
  simp [BAD, FREE] at hfree

/-! ### Chains in the allocator table -/

/-- The unit sequence obtained by following `n` chain links from `start`. -/
def chainOf (fat : List Nat) : Nat → Nat → List Nat
  | _, 0 => []
  | start, n + 1 => start :: chainOf fat (fat.getD start FREE) n

/-- The units of a live entry's chain: `ceil(size / UA)` steps from its
start unit. -/
def entryUnits (fat : List Nat) (f : File) : List Nat :=
  chainOf fat f.startUA (ceilUAs f.size)

/-- A well-linked chain: each unit's table entry holds the next unit's
index, and the last unit is marked `EOF`. -/
def Links (fat : List Nat) : List Nat → Prop
  | [] => True
  | [u] => fat.get? u = some EOF
  | u :: v :: rest => fat.get? u = some v ∧ Links fat (v :: rest)

/-- `getD`-level linking (no terminal condition). -/
def LinksD (fat : List Nat) : List Nat → Prop
  | u :: v :: rest => fat.getD u FREE = v ∧ LinksD fat (v :: rest)
  | _ => True

theorem chainOf_length (fat : List Nat) : ∀ (n start : Nat),
    (chainOf fat start n).length = n
  | 0, _ => rfl
  | n + 1, start => by simp [chainOf, chainOf_length fat n]

theorem chainOf_ne_nil (fat : List Nat) (start n : Nat) (h : 0 < n) :
    chainOf fat start n ≠ [] := by
  intro hnil
  have := chainOf_length fat n start
  rw [hnil] at this
  simp at this
  omega

theorem chainOf_head (fat : List Nat) (start n : Nat) (h : 0 < n) :
    (chainOf fat start n).head? = some start := by
  cases n with
  | zero => omega
  | succ m => rfl

/-- Following links recovers a `getD`-linked list. -/
theorem chainOf_of_linksD (fat : List Nat) :
    ∀ (us : List Nat) (u : Nat), LinksD fat (u :: us) →
      chainOf fat u (u :: us).length = u :: us
  | [], u, _ => rfl
  | v :: rest, u, h => by
      have hlink : fat.getD u FREE = v := h.1
      have htail := chainOf_of_linksD fat rest v h.2
      show u :: chainOf fat (fat.getD u FREE) (v :: rest).length = u :: v :: rest
      rw [hlink, htail]

/-- `chainOf` depends on the table only at the chain's own units. -/
theorem chainOf_congr (fat fat2 : List Nat) :
    ∀ (n start : Nat),
      (∀ x ∈ chainOf fat start n, fat2.getD x FREE = fat.getD x FREE) →
      chainOf fat2 start n = chainOf fat start n
  | 0, _, _ => rfl
  | n + 1, start, h => by
      have hs : fat2.getD start FREE = fat.getD start FREE :=
        h start (show start ∈ start :: chainOf fat (fat.getD start FREE) n from
          List.mem_cons_self start _)
      simp only [chainOf, hs]
      refine congrArg _ (chainOf_congr fat fat2 n (fat.getD start FREE) ?_)
      intro x hx
      refine h x ?_
      show x ∈ start :: chainOf fat (fat.getD start FREE) n
      exact List.mem_cons_of_mem start hx

theorem getLastD_congr : ∀ (us : List Nat), us ≠ [] → ∀ (a b : Nat),
    us.getLastD a = us.getLastD b
  | [], h, _, _ => absurd rfl h
  | _ :: l, _, a, b => by rw [List.getLastD_cons, List.getLastD_cons]

theorem get?_eq_some_getD (d : Nat) {l : List Nat} {i : Nat} (h : i < l.length) :
    l.get? i = some (l.getD i d) := by
  rw [List.get?_eq_getElem?, List.getElem?_eq_getElem h,
    List.getD_eq_getElem?_getD, List.getElem?_eq_getElem h]
  rfl

/-- `Links` is unaffected by setting a unit outside the chain. -/
theorem links_set_not_mem (fat : List Nat) (x w : Nat) :
    ∀ (us : List Nat), Links fat us → x ∉ us → Links (fat.set x w) us
  | [], _, _ => trivial
  | [u], h, hx => by
      have hxu : x ≠ u := by intro he; exact hx (by simp [he])
      show (fat.set x w).get? u = some EOF
      rw [List.get?_eq_getElem?, List.getElem?_set_ne hxu]
      rw [Links, List.get?_eq_getElem?] at h
      exact h
  | u :: v :: rest, h, hx => by
      have hxu : x ≠ u := by intro he; exact hx (by simp [he])
      refine ⟨?_, links_set_not_mem fat x w (v :: rest) h.2 (fun hm => hx (by simp [hm]))⟩
      rw [List.get?_eq_getElem?, List.getElem?_set_ne hxu]
      rw [Links] at h
      rw [List.get?_eq_getElem?] at h
      exact h.1

/-- A `getD`-linked chain whose last entry is `EOF`-marked and whose units
are genuine indices is a well-linked chain. -/
theorem links_of_linksD (fat : List Nat) :
    ∀ (us : List Nat), LinksD fat us →
      (∀ x ∈ us, x < fat.length) →
      (us ≠ [] → fat.getD (us.getLastD 0) FREE = EOF) →
      Links fat us
  | [], _, _, _ => trivial
  | [u], _, hb, hlast => by
      show fat.get? u = some EOF
      rw [get?_eq_some_getD FREE (hb u (by simp))]
      have := hlast (by simp)
      rw [show ([u] : List Nat).getLastD 0 = u from rfl] at this
      rw [this]
  | u :: v :: rest, h, hb, hlast => by
      refine ⟨?_, links_of_linksD fat (v :: rest) h.2
        (fun x hx => hb x (by simp [hx])) (fun _ => ?_)⟩
      · rw [get?_eq_some_getD FREE (hb u (by simp))]
        rw [h.1]
      · have := hlast (by simp)
        rwa [List.getLastD_cons, getLastD_congr (v :: rest) (by simp) u 0] at this

/-! ### The chain-freeing loop -/

theorem freeChainLoop_eof : ∀ (fuel : Nat) (fat : List Nat),
    freeChainLoop fuel EOF fat = if 0 < fuel then some fat else none
  | 0, _ => rfl
  | fuel + 1, fat => by simp [freeChainLoop]

/-- Characterization of the DELETE freeing loop on a well-linked chain of
distinct units (none of which collides with a sentinel value):
it terminates exactly when given more fuel than the chain is long, and
marks precisely the chain's units `FREE`. -/
theorem freeChainLoop_spec :
    ∀ (us : List Nat) (fat : List Nat) (u : Nat),
      Links fat (u :: us) → (u :: us).Nodup → (∀ x ∈ u :: us, BAD ≤ x) →
      ∀ fuel,
        freeChainLoop fuel u fat =
          if (u :: us).length < fuel then
            some ((u :: us).foldl (fun t x => t.set x FREE) fat)
          else none
  | us, fat, u, hlinks, hnodup, hbig, 0 => by simp [freeChainLoop]
  | [], fat, u, hlinks, hnodup, hbig, fuel + 1 => by
      have hu : u ≠ EOF := by
        have := hbig u (by simp); simp only [BAD, EOF] at *; omega
      have hget : fat.get? u = some EOF := hlinks
      simp only [freeChainLoop, if_neg hu, hget]
      rw [if_neg (by simp [EOF]), freeChainLoop_eof]
      simp only [List.length_cons, List.length_nil]
      by_cases hf : 0 < fuel
      · rw [if_pos hf, if_pos (by omega)]
        rfl
      · rw [if_neg hf, if_neg (by omega)]
  | v :: rest, fat, u, hlinks, hnodup, hbig, fuel + 1 => by
      have hu : u ≠ EOF := by
        have := hbig u (by simp); simp only [BAD, EOF] at *; omega
      have hv : v ≠ EOF := by
        have := hbig v (by simp); simp only [BAD, EOF] at *; omega
      have hget : fat.get? u = some v := hlinks.1
      simp only [freeChainLoop, if_neg hu, hget]
      rw [if_pos hv]
      have hnm : u ∉ v :: rest := by
        have := hnodup; rw [List.nodup_cons] at this; exact this.1
      have htail : Links (fat.set u FREE) (v :: rest) :=
        links_set_not_mem fat u FREE (v :: rest) hlinks.2 hnm
      rw [freeChainLoop_spec rest (fat.set u FREE) v htail
        (by rw [List.nodup_cons] at hnodup; exact hnodup.2)
        (fun x hx => hbig x (by simp at hx ⊢; tauto)) fuel]
      simp only [List.length_cons, List.foldl_cons]
      by_cases hf : rest.length + 1 < fuel
      · rw [if_pos hf, if_pos (by omega)]
      · rw [if_neg hf, if_neg (by omega)]

/-! ### Pointwise views of slice reads and writes -/

theorem pySlice_getElem? (l : List Nat) (a b k : Nat) :
    (pySlice l a b)[k]? = if k < b - a then l[a + k]? else none := by
  by_cases h : k < b - a
  · rw [if_pos h, pySlice, List.getElem?_take_of_lt h, List.getElem?_drop]
  · rw [if_neg h, List.getElem?_eq_none]
    rw [pySlice]
    simp only [List.length_take, List.length_drop]
    omega

theorem sliceAssign_getElem? {l block : List Nat} {start stop : Nat}
    (h1 : start ≤ l.length) (h2 : block.length = stop - start)
    (h3 : start ≤ stop) (i : Nat) :
    (sliceAssign l start stop block)[i]? =
      if i < start then l[i]? else if i < stop then block[i - start]? else l[i]? := by
  have htk : (l.take start).length = start := by simp [List.length_take]; omega
  rw [sliceAssign, List.append_assoc]
  by_cases ha : i < start
  · rw [if_pos ha, List.getElem?_append_left (by omega),
      List.getElem?_take_of_lt ha]
  · rw [if_neg ha, List.getElem?_append_right (by omega), htk]
    by_cases hb : i < stop
    · rw [if_pos hb, List.getElem?_append_left (by omega)]
    · rw [if_neg hb, List.getElem?_append_right (by omega)]
      rw [show i - start - block.length = i - stop by omega, List.getElem?_drop]
      rw [show stop + (i - stop) = i by omega]

/-- The 16-byte block of unit `u` in the storage buffer. -/
def blockAt (hdd : List Nat) (u : Nat) : List Nat :=
  pySlice hdd (u * UA) (u * UA + UA)

theorem blockAt_length_of_le {hdd : List Nat} {u : Nat}
    (h : u * UA + UA ≤ hdd.length) : (blockAt hdd u).length = UA := by
  rw [blockAt, pySlice_length]
  omega

theorem blockAt_sliceAssign_self {l block : List Nat} {u : Nat}
    (hlen : block.length = UA) (hb : u * UA + UA ≤ l.length) :
    blockAt (sliceAssign l (u * UA) (u * UA + UA) block) u = block := by
  refine List.ext_getElem? (fun k => ?_)
  rw [blockAt, pySlice_getElem?]
  by_cases hk : k < UA
  · rw [if_pos (by omega),
      sliceAssign_getElem? (by omega) (by omega) (by omega)]
    rw [if_neg (by omega), if_pos (by omega)]
    rw [show u * UA + k - u * UA = k by omega]
  · rw [if_neg (by omega), eq_comm, List.getElem?_eq_none]
    omega

theorem blockAt_sliceAssign_ne {l block : List Nat} {u v : Nat}
    (huv : u ≠ v) (hlen : block.length = UA) (hb : v * UA + UA ≤ l.length) :
    blockAt (sliceAssign l (v * UA) (v * UA + UA) block) u = blockAt l u := by
  have hdisj : u * UA + UA ≤ v * UA ∨ v * UA + UA ≤ u * UA := by
    rcases Nat.lt_or_ge u v with h | h
    · left
      have : u + 1 ≤ v := h
      calc u * UA + UA = (u + 1) * UA := by ring
        _ ≤ v * UA := Nat.mul_le_mul_right UA this
    · have : v < u := by omega
      right
      calc v * UA + UA = (v + 1) * UA := by ring
        _ ≤ u * UA := Nat.mul_le_mul_right UA this
  refine List.ext_getElem? (fun k => ?_)
  rw [blockAt, blockAt, pySlice_getElem?, pySlice_getElem?]
  by_cases hk : k < u * UA + UA - u * UA
  · rw [if_pos hk, if_pos hk,
      sliceAssign_getElem? (by omega) (by omega) (by omega)]
    have hkua : k < UA := by omega
    rcases hdisj with h | h
    · rw [if_pos (by omega)]
    · rw [if_neg (by omega), if_neg (by omega)]
  · rw [if_neg hk, if_neg hk]

/-! ### Structural form of the allocation write loop -/

/-- Structural restatement of `allocWriteLoop`: walk the allocated unit
list itself, with `i` tracking the Python loop counter (so
`allocated[i]` is the head and `allocated[i+1]` is `rest.headD 0`). -/
def allocStep (content : List Nat) (nr_UAs : Nat) :
    List Nat → Nat → List Nat × List Nat → List Nat × List Nat
  | [], _, st => st
  | u :: rest, i, (fat, hdd) =>
      let hdd2 := sliceAssign hdd (u * UA) (u * UA + UA)
        (pySlice content (i * UA) ((i + 1) * UA))
      let fat2 := if i < nr_UAs - 1 then fat.set u (rest.headD 0) else fat.set u EOF
      allocStep content nr_UAs rest (i + 1) (fat2, hdd2)

theorem allocWriteLoop_eq_allocStep (content : List Nat) (nr_UAs : Nat) :
    ∀ (rest pre : List Nat) (st : List Nat × List Nat),
      allocWriteLoop (pre ++ rest) content nr_UAs
          (List.range' pre.length rest.length) st =
        allocStep content nr_UAs rest pre.length st
  | [], pre, st => rfl
  | u :: rest, pre, (fat, hdd) => by
      rw [show (u :: rest).length = rest.length + 1 from rfl, List.range'_succ]
      have hget : (pre ++ u :: rest).getD pre.length 0 = u := by
        rw [List.getD_eq_getElem?_getD, List.getElem?_append_right (Nat.le_refl _)]
        simp
      have hget2 : (pre ++ u :: rest).getD (pre.length + 1) 0 = rest.headD 0 := by
        rw [List.getD_eq_getElem?_getD, List.getElem?_append_right (by omega),
          show pre.length + 1 - pre.length = 1 by omega]
        cases rest <;> simp
      have IH := allocWriteLoop_eq_allocStep content nr_UAs rest (pre ++ [u])
        (if pre.length < nr_UAs - 1 then fat.set u (rest.headD 0) else fat.set u EOF,
         sliceAssign hdd (u * UA) (u * UA + UA)
           (pySlice content (pre.length * UA) ((pre.length + 1) * UA)))
      rw [List.length_append, List.length_cons, List.length_nil] at IH
      rw [List.append_assoc] at IH
      simp only [List.singleton_append, Nat.add_zero] at IH
      simp only [allocWriteLoop, hget, hget2]
      exact IH

theorem allocStep_fst_length (content : List Nat) (n : Nat) :
    ∀ (rest : List Nat) (i : Nat) (fat hdd : List Nat),
      (allocStep content n rest i (fat, hdd)).1.length = fat.length
  | [], _, _, _ => rfl
  | u :: rest, i, fat, hdd => by
      rw [allocStep, allocStep_fst_length content n rest (i + 1)]
      by_cases h : i < n - 1 <;> simp [h]

theorem allocStep_fst_getD_not_mem (content : List Nat) (n : Nat) :
    ∀ (rest : List Nat) (i : Nat) (fat hdd : List Nat) (x d : Nat),
      x ∉ rest →
      (allocStep content n rest i (fat, hdd)).1.getD x d = fat.getD x d
  | [], _, _, _, _, _, _ => rfl
  | u :: rest, i, fat, hdd, x, d, hx => by
      have hxu : u ≠ x := by intro he; exact hx (by simp [he])
      have hxr : x ∉ rest := fun hm => hx (by simp [hm])
      rw [allocStep, allocStep_fst_getD_not_mem content n rest (i + 1) _ _ x d hxr]
      by_cases h : i < n - 1 <;>
        simp [h, List.getD_eq_getElem?_getD, List.getElem?_set_ne hxu]

/-- After the write loop, the allocated units form a `getD`-linked chain
whose last unit is marked `EOF`. -/
theorem allocStep_links (content : List Nat) (n : Nat) :
    ∀ (rest : List Nat) (i : Nat) (fat hdd : List Nat),
      rest.Nodup → i + rest.length = n → (∀ x ∈ rest, x < fat.length) →
      LinksD (allocStep content n rest i (fat, hdd)).1 rest ∧
      (rest ≠ [] →
        (allocStep content n rest i (fat, hdd)).1.getD (rest.getLastD 0) FREE = EOF)
  | [], _, _, _, _, _, _ => ⟨trivial, fun h => absurd rfl h⟩
  | [u], i, fat, hdd, hnd, hin, hb => by
      have hcond : ¬ i < n - 1 := by
        simp only [List.length_cons, List.length_nil] at hin; omega
      have hstep : allocStep content n [u] i (fat, hdd) =
          (if i < n - 1 then fat.set u 0 else fat.set u EOF,
           sliceAssign hdd (u * UA) (u * UA + UA)
             (pySlice content (i * UA) ((i + 1) * UA))) := rfl
      refine ⟨trivial, fun _ => ?_⟩
      rw [show ([u] : List Nat).getLastD 0 = u from rfl, hstep, if_neg hcond]
      rw [List.getD_eq_getElem?_getD, List.getElem?_set_self (hb u (by simp))]
      rfl
  | u :: v :: rest, i, fat, hdd, hnd, hin, hb => by
      have hcond : i < n - 1 := by
        simp only [List.length_cons] at hin; omega
      have hnm : u ∉ v :: rest := by
        rw [List.nodup_cons] at hnd; exact hnd.1
      have hstep : allocStep content n (u :: v :: rest) i (fat, hdd) =
          allocStep content n (v :: rest) (i + 1)
            (if i < n - 1 then fat.set u v else fat.set u EOF,
             sliceAssign hdd (u * UA) (u * UA + UA)
               (pySlice content (i * UA) ((i + 1) * UA))) := rfl
      have hlen2 : ∀ x ∈ v :: rest,
          x < (if i < n - 1 then fat.set u v else fat.set u EOF).length := by
        intro x hx
        by_cases h : i < n - 1 <;> simp [h, hb x (by simp at hx ⊢; tauto)]
      have IH := allocStep_links content n (v :: rest) (i + 1)
        (if i < n - 1 then fat.set u v else fat.set u EOF)
        (sliceAssign hdd (u * UA) (u * UA + UA)
          (pySlice content (i * UA) ((i + 1) * UA)))
        (by rw [List.nodup_cons] at hnd; exact hnd.2)
        (by simp only [List.length_cons] at hin ⊢; omega) hlen2
      constructor
      · refine ⟨?_, IH.1⟩
        rw [hstep, allocStep_fst_getD_not_mem content n (v :: rest) (i + 1) _ _ u FREE hnm]
        rw [if_pos hcond, List.getD_eq_getElem?_getD,
          List.getElem?_set_self (hb u (by simp))]
        rfl
      · intro _
        rw [List.getLastD_cons, getLastD_congr (v :: rest) (by simp) u 0, hstep]
        exact IH.2 (by simp)

/-! ### Small helper facts -/

theorem getD_of_lt {l : List Nat} {i : Nat} (h : i < l.length) (d1 d2 : Nat) :
    l.getD i d1 = l.getD i d2 := by
  rw [List.getD_eq_getElem?_getD, List.getD_eq_getElem?_getD,
    List.getElem?_eq_getElem h]
  rfl

theorem getLastD_mem : ∀ (us : List Nat), us ≠ [] → ∀ d, us.getLastD d ∈ us
  | [], h, _ => absurd rfl h
  | u :: l, _, _ => by rw [List.getLastD_cons]; exact List.getLastD_mem_cons l u

theorem ceilUAs_pos {size : Nat} (h : 1 ≤ size) : 0 < ceilUAs size := by
  simp only [ceilUAs, UA]
  omega

theorem size_lt_of_ceil_le {size n : Nat}
    (h : ceilUAs size ≤ n) (hn : n ≤ 3520) : size < 65536 := by
  simp only [ceilUAs, UA] at h
  omega

/-- Every chain produced by following `getD` links is `getD`-linked. -/
theorem chainOf_linksD (fat : List Nat) :
    ∀ (n start : Nat), LinksD fat (chainOf fat start n)
  | 0, _ => trivial
  | n + 1, start => by
      cases n with
      | zero => trivial
      | succ m => exact ⟨rfl, chainOf_linksD fat (m + 1) (fat.getD start FREE)⟩

/-- In a `getD`-linked chain (of units above the sentinel range) ending in
`EOF`, no unit's table entry reads `FREE`. -/
theorem linksD_not_free (fat : List Nat) :
    ∀ (us : List Nat), LinksD fat us → (∀ x ∈ us, BAD ≤ x) →
      (us ≠ [] → fat.getD (us.getLastD 0) FREE = EOF) →
      ∀ u ∈ us, fat.getD u FREE ≠ FREE
  | [], _, _, _, u, hu => absurd hu (by simp)
  | [x], _, _, hlast, u, hu => by
      have hux : u = x := by simpa using hu
      subst hux
      have := hlast (by simp)
      rw [show ([u] : List Nat).getLastD 0 = u from rfl] at this
      rw [this]
      simp [EOF, FREE]
  | x :: y :: rest, hl, hb, hlast, u, hu => by
      rcases (by simpa using hu : u = x ∨ u ∈ y :: rest) with rfl | hmem
      · rw [hl.1]
        have := hb y (by simp)
        simp only [BAD, FREE] at this ⊢
        omega
      · exact linksD_not_free fat (y :: rest) hl.2
          (fun z hz => hb z (by simp at hz ⊢; tauto))
          (fun _ => by
            have := hlast (by simp)
            rwa [List.getLastD_cons, getLastD_congr (y :: rest) (by simp) x 0] at this)
          u hmem

/-! ### The well-formedness invariant -/

/-- A live entry's chain is healthy: positive recorded size below 2^16,
all chain units in the allocatable pool, no repeated unit, and the chain's
last unit marked `EOF`.  (Interior links hold by construction of
`entryUnits`, which follows the table's `getD` links.) -/
def GoodChain (fat : List Nat) (f : File) : Prop :=
  1 ≤ f.size ∧ f.size < 65536 ∧
  (∀ u ∈ entryUnits fat f, UAs_for_FAT + UAs_for_ROOT ≤ u ∧ u < TOTAL_UAs) ∧
  (entryUnits fat f).Nodup ∧
  fat.getD ((entryUnits fat f).getLastD 0) FREE = EOF

/-- The state invariant: the allocator table has the device's unit count,
every live entry has a healthy chain, and distinct live entries' chains
share no unit. -/
def WF (s : State) : Prop :=
  s.FAT.length = TOTAL_UAs ∧
  (∀ f ∈ s.ROOT, GoodChain s.FAT f) ∧
  s.ROOT.Pairwise
    (fun f g => ∀ u, u ∈ entryUnits s.FAT f → u ∈ entryUnits s.FAT g → False)

theorem WF_initState : WF initState := by
  refine ⟨initFAT_length, ?_, ?_⟩
  · intro f hf
    rw [show initState.ROOT = [] from rfl] at hf
    exact absurd hf (by simp)
  · rw [show initState.ROOT = [] from rfl]
    exact List.Pairwise.nil

theorem pool_ge_bad : BAD ≤ UAs_for_FAT + UAs_for_ROOT := by decide

theorem goodChain_not_free {fat : List Nat} {f : File} (h : GoodChain fat f) :
    ∀ u ∈ entryUnits fat f, fat.getD u FREE ≠ FREE :=
  linksD_not_free fat _ (chainOf_linksD fat _ _)
    (fun x hx => le_trans pool_ge_bad (h.2.2.1 x hx).1)
    (fun _ => h.2.2.2.2)

theorem goodChain_links {fat : List Nat} {f : File}
    (hlen : fat.length = TOTAL_UAs) (h : GoodChain fat f) :
    Links fat (entryUnits fat f) :=
  links_of_linksD fat _ (chainOf_linksD fat _ _)
    (fun x hx => by rw [hlen]; exact (h.2.2.1 x hx).2)
    (fun _ => h.2.2.2.2)

/-! ### Allocation preserves the invariant -/

theorem WF_after_alloc {s : State} (content : List Nat) (nm ex : List Char)
    {size : Nat} (hwf : WF s) (hsz : 1 ≤ size)
    (hn : ceilUAs size ≤ (findFreeUAs s.FAT).length) :
    WF { s with
      FAT := (allocStep content (ceilUAs size)
        ((findFreeUAs s.FAT).take (ceilUAs size)) 0 (s.FAT, s.HDD)).1
      HDD := (allocStep content (ceilUAs size)
        ((findFreeUAs s.FAT).take (ceilUAs size)) 0 (s.FAT, s.HDD)).2
      ROOT := s.ROOT ++
        [File.make nm ex size
          (((findFreeUAs s.FAT).take (ceilUAs size)).getD 0 0) 0] } := by
  obtain ⟨hlen, hgood, hpair⟩ := hwf
  set n := ceilUAs size with hn_def
  set alloc := (findFreeUAs s.FAT).take n with halloc_def
  set fat2 := (allocStep content n alloc 0 (s.FAT, s.HDD)).1 with hfat2_def
  have halloc_len : alloc.length = n := by
    rw [halloc_def, List.length_take]; omega
  have halloc_sub : ∀ x ∈ alloc, x ∈ findFreeUAs s.FAT := by
    intro x hx; exact List.take_subset _ _ hx
  have halloc_pool : ∀ x ∈ alloc,
      UAs_for_FAT + UAs_for_ROOT ≤ x ∧ x < TOTAL_UAs := by
    intro x hx
    have := mem_findFreeUAs.mp (halloc_sub x hx)
    exact ⟨this.1, this.2.1⟩
  have halloc_lt : ∀ x ∈ alloc, x < s.FAT.length := by
    intro x hx; exact findFreeUAs_lt_length (halloc_sub x hx)
  have halloc_free : ∀ x ∈ alloc, s.FAT.getD x FREE = FREE := by
    intro x hx
    have := (mem_findFreeUAs.mp (halloc_sub x hx)).2.2
    rwa [getD_of_lt (halloc_lt x hx) BAD FREE] at this
  have hnodup_alloc : alloc.Nodup :=
    List.Nodup.sublist (List.take_sublist _ _) (findFreeUAs_nodup _)
  have hpos : 0 < n := ceilUAs_pos hsz
  have hsize_lt : size < 65536 := by
    refine size_lt_of_ceil_le hn ?_
    have := findFreeUAs_length_le s.FAT
    simp only [TOTAL_UAs, UAs_for_FAT, UAs_for_ROOT] at this
    omega
  have hlinks := allocStep_links content n alloc 0 s.FAT s.HDD hnodup_alloc
    (by omega) halloc_lt
  have hfat2_len : fat2.length = TOTAL_UAs := by
    rw [hfat2_def, allocStep_fst_length, hlen]
  have hne : alloc ≠ [] := by
    intro hnil; rw [hnil] at halloc_len; simp at halloc_len; omega
  obtain ⟨a, rest, hcons⟩ := List.exists_cons_of_ne_nil hne
  have ha_mem : a ∈ alloc := by rw [hcons]; exact List.mem_cons_self a rest
  have ha_lt : a < 65536 := by
    have := (halloc_pool a ha_mem).2
    simp only [TOTAL_UAs] at this
    omega
  have hgetD0 : alloc.getD 0 0 = a := by rw [hcons]; rfl
  -- the new entry and its chain
  set f2 := File.make nm ex size (alloc.getD 0 0) 0 with hf2_def
  have hf2_size : f2.size = size := by
    rw [hf2_def, File.make, Nat.mod_eq_of_lt hsize_lt]
  have hf2_start : f2.startUA = a := by
    rw [hf2_def, File.make, hgetD0]
    exact Nat.mod_eq_of_lt ha_lt
  have hunits2 : entryUnits fat2 f2 = alloc := by
    rw [entryUnits, hf2_size, hf2_start, ← hn_def, ← halloc_len, hcons]
    exact chainOf_of_linksD fat2 rest a (hcons ▸ hlinks.1)
  have hgood2 : GoodChain fat2 f2 := by
    refine ⟨by rw [hf2_size]; exact hsz, by rw [hf2_size]; exact hsize_lt,
      ?_, ?_, ?_⟩
    · rw [hunits2]; exact halloc_pool
    · rw [hunits2]; exact hnodup_alloc
    · rw [hunits2]; exact hlinks.2 hne
  -- old entries keep their chains
  have hchain_keep : ∀ f ∈ s.ROOT, entryUnits fat2 f = entryUnits s.FAT f := by
    intro f hf
    rw [entryUnits, entryUnits]
    refine chainOf_congr s.FAT fat2 _ _ (fun x hx => ?_)
    have hxa : x ∉ alloc := by
      intro hmem
      exact goodChain_not_free (hgood f hf) x hx (halloc_free x hmem)
    rw [hfat2_def]
    exact allocStep_fst_getD_not_mem content n alloc 0 s.FAT s.HDD x FREE hxa
  have hgood_keep : ∀ f ∈ s.ROOT, GoodChain fat2 f := by
    intro f hf
    obtain ⟨h1, h2, h3, h4, h5⟩ := hgood f hf
    refine ⟨h1, h2, ?_, ?_, ?_⟩
    · rw [hchain_keep f hf]; exact h3
    · rw [hchain_keep f hf]; exact h4
    · rw [hchain_keep f hf]
      have hlast_mem : (entryUnits s.FAT f).getLastD 0 ∈ entryUnits s.FAT f := by
        refine getLastD_mem _ ?_ 0
        rw [entryUnits]
        exact chainOf_ne_nil s.FAT _ _ (ceilUAs_pos h1)
      have hxa : (entryUnits s.FAT f).getLastD 0 ∉ alloc := by
        intro hmem
        exact goodChain_not_free (hgood f hf) _ hlast_mem (halloc_free _ hmem)
      rw [hfat2_def,
        allocStep_fst_getD_not_mem content n alloc 0 s.FAT s.HDD _ FREE hxa]
      exact h5
  refine ⟨hfat2_len, ?_, ?_⟩
  · intro f hf
    rcases List.mem_append.mp hf with hf | hf
    · exact hgood_keep f hf
    · have : f = f2 := by simpa using hf
      rw [this]; exact hgood2
  · rw [List.pairwise_append]
    refine ⟨?_, by simp, ?_⟩
    · refine List.Pairwise.imp_of_mem ?_ hpair
      intro f g hf hg hrel u hu1 hu2
      rw [hchain_keep f hf] at hu1
      rw [hchain_keep g hg] at hu2
      exact hrel u hu1 hu2
    · intro f hf b hb u hu1 hu2
      have hb2 : b = f2 := by simpa using hb
      rw [hchain_keep f hf] at hu1
      rw [hb2, hunits2] at hu2
      exact goodChain_not_free (hgood f hf) u hu1 (halloc_free u hu2)

/-! ### The chain-reading loop -/

/-- Characterization of the COPY reading loop on a well-linked chain: it
terminates exactly when given more fuel than the chain is long, and
returns the concatenation of the chain's unit blocks in order. -/
theorem readChainLoop_spec :
    ∀ (us : List Nat) (fat hdd : List Nat) (u : Nat),
      Links fat (u :: us) → (∀ x ∈ u :: us, BAD ≤ x) →
      ∀ fuel,
        readChainLoop fuel u fat hdd =
          if (u :: us).length < fuel then
            some (((u :: us).map
              (fun x => pySlice hdd (x * UA) (x * UA + UA))).flatten)
          else none
  | us, fat, hdd, u, hlinks, hbig, 0 => by simp [readChainLoop]
  | [], fat, hdd, u, hlinks, hbig, fuel + 1 => by
      have hu : u ≠ EOF := by
        have := hbig u (by simp); simp only [BAD, EOF] at *; omega
      have hget : fat.get? u = some EOF := hlinks
      simp only [readChainLoop, if_neg hu, hget]
      have heof : ∀ fl (fat2 hdd2 : List Nat), readChainLoop fl EOF fat2 hdd2 =
          if 0 < fl then some [] else none := by
        intro fl fat2 hdd2
        cases fl with
        | zero => rfl
        | succ m => simp [readChainLoop]
      rw [heof]
      simp only [List.length_cons, List.length_nil]
      by_cases hf : 0 < fuel
      · rw [if_pos hf, if_pos (by omega)]
        simp
      · rw [if_neg hf, if_neg (by omega)]
        rfl
  | v :: rest, fat, hdd, u, hlinks, hbig, fuel + 1 => by
      have hu : u ≠ EOF := by
        have := hbig u (by simp); simp only [BAD, EOF] at *; omega
      have hget : fat.get? u = some v := hlinks.1
      simp only [readChainLoop, if_neg hu, hget]
      rw [readChainLoop_spec rest fat hdd v hlinks.2
        (fun x hx => hbig x (by simp at hx ⊢; tauto)) fuel]
      simp only [List.length_cons]
      by_cases hf : rest.length + 1 < fuel
      · rw [if_pos hf, if_pos (by omega)]
        simp
      · rw [if_neg hf, if_neg (by omega)]
        rfl

/-! ### Shapes of allocateUAsAndWrite and generateContent -/

theorem allocateUAsAndWrite_fail {content : List Nat} {nr_UAs : Nat} {s : State}
    (h : (findFreeUAs s.FAT).length < nr_UAs) :
    allocateUAsAndWrite content nr_UAs s = (none, s) := by
  simp only [allocateUAsAndWrite, if_pos h]

theorem allocateUAsAndWrite_succ {content : List Nat} {nr_UAs : Nat} {s : State}
    (h : ¬ (findFreeUAs s.FAT).length < nr_UAs) :
    allocateUAsAndWrite content nr_UAs s =
      (some (((findFreeUAs s.FAT).take nr_UAs).getD 0 0),
       { s with
          FAT := (allocStep content nr_UAs ((findFreeUAs s.FAT).take nr_UAs) 0
            (s.FAT, s.HDD)).1
          HDD := (allocStep content nr_UAs ((findFreeUAs s.FAT).take nr_UAs) 0
            (s.FAT, s.HDD)).2 }) := by
  have hlen : ((findFreeUAs s.FAT).take nr_UAs).length = nr_UAs := by
    rw [List.length_take]; omega
  have hb := allocWriteLoop_eq_allocStep content nr_UAs
    ((findFreeUAs s.FAT).take nr_UAs) [] (s.FAT, s.HDD)
  rw [List.nil_append, List.length_nil, hlen] at hb
  simp only [allocateUAsAndWrite, if_neg h, List.range_eq_range', hb]

theorem generateContent_zero (mode : List Char) : generateContent 0 mode = [] := by
  rw [generateContent]
  split <;> simp

theorem size_pos_of_content_ne {size : Nat} {mode : List Char}
    (h : ¬ (generateContent size mode).isEmpty) : 1 ≤ size := by
  by_contra hz
  have h0 : size = 0 := by omega
  rw [h0, generateContent_zero] at h
  exact h rfl

/-! ### findFileIndex inversion -/

theorem findFileIndex_some {root : List File} {nm ex : List Char} {i : Nat}
    (h : findFileIndex root nm ex = some i) :
    i < root.length ∧ (root.getD i default).name = nm ∧
      (root.getD i default).extension = ex := by
  rw [findFileIndex, List.findIdx?_eq_some_iff_getElem] at h
  obtain ⟨hlt, hp, -⟩ := h
  simp only [Bool.and_eq_true, beq_iff_eq] at hp
  refine ⟨hlt, ?_, ?_⟩ <;>
    rw [List.getD_eq_getElem?_getD, List.getElem?_eq_getElem hlt] <;>
    simp [hp.1, hp.2]

theorem getD_mem_of_lt {l : List File} {i : Nat} (h : i < l.length) :
    l.getD i default ∈ l := by
  rw [List.getD_eq_getElem?_getD, List.getElem?_eq_getElem h]
  exact List.getElem_mem h

theorem entryUnits_ne_nil (fat : List Nat) {f : File} (h : 1 ≤ f.size) :
    entryUnits fat f ≠ [] :=
  chainOf_ne_nil fat f.startUA (ceilUAs f.size) (ceilUAs_pos h)

theorem entryUnits_head (fat : List Nat) {f : File} (h : 1 ≤ f.size) :
    (entryUnits fat f).head? = some f.startUA :=
  chainOf_head fat f.startUA (ceilUAs f.size) (ceilUAs_pos h)

/-! ### Handler-level invariant preservation -/

theorem WF_handleCREATE (s : State) (nm ex : List Char) (size : Nat)
    (mode : List Char) (hwf : WF s) :
    WF (handleCREATE s nm ex size mode).1 := by
  by_cases h1 : (findFileIndex s.ROOT nm ex).isSome
  · simp only [handleCREATE, if_pos h1]; exact hwf
  · by_cases h2 : (generateContent size mode).isEmpty
    · simp only [handleCREATE, if_neg h1, if_pos h2]; exact hwf
    · by_cases h3 : (findFreeUAs s.FAT).length < ceilUAs size
      · simp only [handleCREATE, if_neg h1, if_neg h2,
          allocateUAsAndWrite_fail h3]
        exact hwf
      · have hsz : 1 ≤ size := size_pos_of_content_ne h2
        simp only [handleCREATE, if_neg h1, if_neg h2,
          allocateUAsAndWrite_succ h3]
        exact WF_after_alloc (generateContent size mode) nm ex hwf hsz (by omega)

/-- The allocator table after freeing the chain of the entry at `index`. -/
def freedFAT (s : State) (index : Nat) : List Nat :=
  (entryUnits s.FAT (s.ROOT.getD index default)).foldl
    (fun t x => t.set x FREE) s.FAT

theorem WF_after_free {s : State} {index : Nat} (hwf : WF s)
    (hlt : index < s.ROOT.length) :
    WF { s with
      FAT := freedFAT s index
      ROOT := s.ROOT.eraseIdx index } := by
  obtain ⟨hlen, hgood, hpair⟩ := hwf
  set f := s.ROOT.getD index default with hf_def
  have hfmem : f ∈ s.ROOT := getD_mem_of_lt hlt
  have hgoodf := hgood f hfmem
  -- decomposition of the directory around the deleted entry
  have hsplit : s.ROOT = s.ROOT.take index ++ f :: s.ROOT.drop (index + 1) := by
    rw [hf_def, List.getD_eq_getElem?_getD, List.getElem?_eq_getElem hlt]
    rw [show (some s.ROOT[index]).getD default = s.ROOT[index] from rfl]
    rw [List.getElem_cons_drop s.ROOT index hlt, List.take_append_drop]
  have herase : s.ROOT.eraseIdx index =
      s.ROOT.take index ++ s.ROOT.drop (index + 1) :=
    List.eraseIdx_eq_take_drop_succ s.ROOT index
  have hpair2 := hsplit ▸ hpair
  rw [List.pairwise_append] at hpair2
  have hdisj : ∀ g ∈ s.ROOT.eraseIdx index,
      ∀ u, u ∈ entryUnits s.FAT f → u ∈ entryUnits s.FAT g → False := by
    intro g hg u hu1 hu2
    rw [herase, List.mem_append] at hg
    rcases hg with hg | hg
    · exact hpair2.2.2 g hg f (by simp) u hu2 hu1
    · have := List.rel_of_pairwise_cons hpair2.2.1 hg
      exact this u hu1 hu2
  -- the freed table agrees with the old one outside the deleted chain
  have hfat_getD : ∀ x d, x ∉ entryUnits s.FAT f →
      (freedFAT s index).getD x d = s.FAT.getD x d := by
    intro x d hx
    rw [freedFAT, foldl_set_getD, if_neg (by tauto)]
  have hfat_len : (freedFAT s index).length = s.FAT.length :=
    foldl_set_length FREE _ s.FAT
  have hkeep : ∀ g ∈ s.ROOT.eraseIdx index,
      entryUnits (freedFAT s index) g = entryUnits s.FAT g := by
    intro g hg
    refine chainOf_congr s.FAT (freedFAT s index) _ _ (fun x hx => ?_)
    exact hfat_getD x FREE (fun hmem => hdisj g hg x hmem hx)
  have hproj : ({ s with
      FAT := freedFAT s index
      ROOT := s.ROOT.eraseIdx index } : State).FAT = freedFAT s index := rfl
  refine ⟨?_, ?_, ?_⟩
  · show (freedFAT s index).length = TOTAL_UAs
    rw [hfat_len, hlen]
  · intro g hg
    have hg2 : g ∈ s.ROOT.eraseIdx index := hg
    have hgm : g ∈ s.ROOT := List.mem_of_mem_eraseIdx hg2
    obtain ⟨g1, g2, g3, g4, g5⟩ := hgood g hgm
    refine ⟨g1, g2, ?_, ?_, ?_⟩
    · rw [hproj, hkeep g hg2]; exact g3
    · rw [hproj, hkeep g hg2]; exact g4
    · rw [hproj, hkeep g hg2]
      have hlast_mem : (entryUnits s.FAT g).getLastD 0 ∈ entryUnits s.FAT g :=
        getLastD_mem _ (entryUnits_ne_nil s.FAT g1) 0
      rw [hfat_getD _ FREE (fun hmem => hdisj g hg2 _ hmem hlast_mem)]
      exact g5
  · show (s.ROOT.eraseIdx index).Pairwise _
    have hp2 := hpair.eraseIdx index
    refine List.Pairwise.imp_of_mem ?_ hp2
    intro g1 g2 hg1 hg2 hrel u hu1 hu2
    rw [hproj, hkeep g1 hg1] at hu1
    rw [hproj, hkeep g2 hg2] at hu2
    exact hrel u hu1 hu2

theorem WF_handleDELETE (fuel : Nat) (s : State) (nm ex : List Char)
    (hwf : WF s) :
    ∀ p, handleDELETE fuel s nm ex = some p → WF p.1 := by
  intro p hp
  cases hidx : findFileIndex s.ROOT nm ex with
  | none =>
      simp only [handleDELETE, hidx] at hp
      cases hp
      exact hwf
  | some index =>
      cases hloopv : freeChainLoop fuel (s.ROOT.getD index default).startUA s.FAT with
      | none =>
          simp only [handleDELETE, hidx, hloopv] at hp
          exact absurd hp (by simp)
      | some fat2 =>
          simp only [handleDELETE, hidx, hloopv] at hp
          have hlt : index < s.ROOT.length := (findFileIndex_some hidx).1
          set f := s.ROOT.getD index default with hf_def
          have hfmem : f ∈ s.ROOT := getD_mem_of_lt hlt
          have hgoodf := hwf.2.1 f hfmem
          have hlinks := goodChain_links hwf.1 hgoodf
          obtain ⟨u, us, hcons⟩ :=
            List.exists_cons_of_ne_nil (entryUnits_ne_nil s.FAT hgoodf.1)
          have hstart : f.startUA = u := by
            have := entryUnits_head s.FAT hgoodf.1
            rw [hcons] at this
            simpa using this.symm
          have hbig : ∀ x ∈ u :: us, BAD ≤ x := by
            intro x hx
            exact le_trans pool_ge_bad (hgoodf.2.2.1 x (hcons ▸ hx)).1
          rw [hstart,
            freeChainLoop_spec us s.FAT u (hcons ▸ hlinks)
              (hcons ▸ hgoodf.2.2.2.1) hbig fuel] at hloopv
          by_cases hfl : (u :: us).length < fuel
          · rw [if_pos hfl] at hloopv
            have hfat2 : fat2 = freedFAT s index := by
              have := Option.some.inj hloopv
              rw [← this, freedFAT, ← hf_def, ← hcons]
            cases Option.some.inj hp
            show WF { s with FAT := fat2, ROOT := s.ROOT.eraseIdx index }
            rw [hfat2]
            exact WF_after_free ⟨hwf.1, hwf.2.1, hwf.2.2⟩ hlt
          · rw [if_neg hfl] at hloopv
            exact absurd hloopv (by simp)

theorem WF_handleRENAME (s : State) (a b c d : List Char) (hwf : WF s) :
    WF (handleRENAME s a b c d).1 := by
  cases hidx : findFileIndex s.ROOT a b with
  | none => simp only [handleRENAME, hidx]; exact hwf
  | some index =>
      simp only [handleRENAME, hidx]
      obtain ⟨hlen, hgood, hpair⟩ := hwf
      have hlt : index < s.ROOT.length := (findFileIndex_some hidx).1
      set f := s.ROOT.getD index default with hf_def
      set f2 : File := { f with name := c, extension := d } with hf2_def
      have hunits_eq : entryUnits s.FAT f2 = entryUnits s.FAT f := rfl
      have hfe : ∀ (j : Nat) (hj : j < s.ROOT.length), index = j → s.ROOT[j] = f := by
        intro j hj he
        rw [hf_def, he, List.getD_eq_getElem?_getD, List.getElem?_eq_getElem hj]
        rfl
      refine ⟨hlen, ?_, ?_⟩
      · intro g hg
        have hg2 : g ∈ s.ROOT.set index f2 := hg
        rcases List.mem_or_eq_of_mem_set hg2 with hgm | rfl
        · exact hgood g hgm
        · have := hgood f (getD_mem_of_lt hlt)
          exact ⟨this.1, this.2.1,
            hunits_eq ▸ this.2.2.1, hunits_eq ▸ this.2.2.2.1,
            hunits_eq ▸ this.2.2.2.2⟩
      · show (s.ROOT.set index f2).Pairwise _
        rw [List.pairwise_iff_getElem] at hpair ⊢
        intro i j hi hj hij
        rw [List.length_set] at hi hj
        intro u hu1 hu2
        have hgi : (s.ROOT.set index f2)[i] = if index = i then f2 else s.ROOT[i] :=
          List.getElem_set (by rwa [List.length_set])
        have hgj : (s.ROOT.set index f2)[j] = if index = j then f2 else s.ROOT[j] :=
          List.getElem_set (by rwa [List.length_set])
        refine hpair i j hi hj hij u ?_ ?_
        · by_cases he : index = i
          · rw [hgi, if_pos he] at hu1
            rw [hfe i hi he]
            exact hunits_eq ▸ hu1
          · rwa [hgi, if_neg he] at hu1
        · by_cases he : index = j
          · rw [hgj, if_pos he] at hu2
            rw [hfe j hj he]
            exact hunits_eq ▸ hu2
          · rwa [hgj, if_neg he] at hu2

theorem WF_handleCOPY (fuel : Nat) (s : State) (a b c d : List Char)
    (hwf : WF s) :
    ∀ p, handleCOPY fuel s a b c d = some p → WF p.1 := by
  intro p hp
  cases hidx : findFileIndex s.ROOT a b with
  | none =>
      simp only [handleCOPY, hidx] at hp
      cases hp
      exact hwf
  | some srcIndex =>
      by_cases hdst : (findFileIndex s.ROOT c d).isSome
      · simp only [handleCOPY, hidx, if_pos hdst] at hp
        cases hp
        exact hwf
      · cases hread : readChainLoop fuel (s.ROOT.getD srcIndex default).startUA
            s.FAT s.HDD with
        | none =>
            simp only [handleCOPY, hidx, if_neg hdst, hread] at hp
            exact absurd hp (by simp)
        | some content =>
            simp only [handleCOPY, hidx, if_neg hdst, hread] at hp
            have hlt : srcIndex < s.ROOT.length := (findFileIndex_some hidx).1
            set f := s.ROOT.getD srcIndex default with hf_def
            have hfmem : f ∈ s.ROOT := getD_mem_of_lt hlt
            have hgoodf := hwf.2.1 f hfmem
            by_cases hsp : (findFreeUAs s.FAT).length < ceilUAs f.size
            · rw [allocateUAsAndWrite_fail hsp] at hp
              simp only [Option.some.injEq] at hp
              rw [← hp]
              exact hwf
            · rw [allocateUAsAndWrite_succ hsp] at hp
              simp only [Option.some.injEq] at hp
              rw [← hp]
              exact WF_after_alloc content c d
                ⟨hwf.1, hwf.2.1, hwf.2.2⟩ hgoodf.1 (by omega)

/-! ### Reachability preserves the invariant -/

theorem WF_applyOp (fuel : Nat) (op : Op) (s s2 : State)
    (h : applyOp fuel op s = some s2) (hwf : WF s) : WF s2 := by
  cases op with
  | create n e sz m =>
      cases Option.some.inj h
      exact WF_handleCREATE s n e sz m hwf
  | delete n e =>
      simp only [applyOp] at h
      cases hd : handleDELETE fuel s n e with
      | none => rw [hd] at h; exact absurd h (by simp)
      | some p =>
          rw [hd] at h
          simp only [Option.map_some', Option.some.injEq] at h
          rw [← h]
          exact WF_handleDELETE fuel s n e hwf p hd
  | rename a b c d =>
      cases Option.some.inj h
      exact WF_handleRENAME s a b c d hwf
  | copy a b c d =>
      simp only [applyOp] at h
      cases hd : handleCOPY fuel s a b c d with
      | none => rw [hd] at h; exact absurd h (by simp)
      | some p =>
          rw [hd] at h
          simp only [Option.map_some', Option.some.injEq] at h
          rw [← h]
          exact WF_handleCOPY fuel s a b c d hwf p hd
  | dir =>
      cases Option.some.inj h
      exact hwf

theorem WF_reach {s0 s : State} (h0 : WF s0) (h : Reach s0 s) : WF s := by
  induction h with
  | refl => exact h0
  | tail _ hstep ih =>
      obtain ⟨op, fuel, happ⟩ := hstep
      exact WF_applyOp fuel op _ _ happ ih

/-! ### Divergence of the freeing loop on a cyclic table -/

theorem get?_set_self_of_lt {l : List Nat} {i v : Nat} (h : i < l.length) :
    (l.set i v).get? i = some v := by
  rw [List.get?_eq_getElem?, List.getElem?_set_self h]

theorem get?_set_ne2 {l : List Nat} {i j v : Nat} (h : i ≠ j) :
    (l.set i v).get? j = l.get? j := by
  rw [List.get?_eq_getElem?, List.get?_eq_getElem?, List.getElem?_set_ne h]

/-- Once the walk reaches unit 0 while unit 0 itself reads `FREE = 0`,
it keeps revisiting unit 0 and never terminates. -/
theorem freeChainLoop_selfLoop :
    ∀ (fat : List Nat), fat.get? 0 = some 0 →
      ∀ fuel, freeChainLoop fuel 0 fat = none
  | _, _, 0 => rfl
  | fat, h, fuel + 1 => by
      have hlt : 0 < fat.length := by
        by_contra hge
        rw [List.get?_eq_getElem?, List.getElem?_eq_none (by omega)] at h
        exact absurd h (by simp)
      simp only [freeChainLoop, if_neg (by decide : ¬ (0 = EOF)), h,
        if_pos (by decide : (0 : Nat) ≠ EOF)]
      exact freeChainLoop_selfLoop (fat.set 0 FREE)
        (get?_set_self_of_lt hlt) fuel

theorem freeChainLoop_step (u v : Nat) {fat : List Nat} (hu : u ≠ EOF)
    (hv : v ≠ EOF) (hget : fat.get? u = some v)
    (hloop : ∀ fuel, freeChainLoop fuel v (fat.set u FREE) = none) :
    ∀ fuel, freeChainLoop fuel u fat = none
  | 0 => rfl
  | fuel + 1 => by
      simp only [freeChainLoop, if_neg hu, hget, if_pos hv]
      exact hloop fuel

/-- A corrupted allocator table: units 576 and 577 point at each other. -/
def cycFAT : List Nat := (initFAT.set 576 577).set 577 576

/-- A state whose single entry's chain enters the 576 ↔ 577 cycle. -/
def cycState : State :=
  { initState with
    FAT := cycFAT
    ROOT := [File.make ['x'] ['y'] 32 576 0] }

theorem initFAT_get?_of_lt {i : Nat} (h : i < TOTAL_UAs) :
    initFAT.get? i = some (initFAT.getD i FREE) :=
  get?_eq_some_getD FREE (by rw [initFAT_length]; exact h)

theorem cycFAT_length : cycFAT.length = TOTAL_UAs := by
  rw [cycFAT, List.length_set, List.length_set, initFAT_length]

theorem cyc_div : ∀ fuel, freeChainLoop fuel 576 cycFAT = none := by
  have hlI : initFAT.length = 4096 := initFAT_length
  have h1 : cycFAT.get? 576 = some 577 := by
    rw [cycFAT, get?_set_ne2 (show (577 : Nat) ≠ 576 by decide),
      get?_set_self_of_lt (show 576 < initFAT.length by rw [hlI]; decide)]
  have h2 : (cycFAT.set 576 FREE).get? 577 = some 576 := by
    rw [get?_set_ne2 (show (576 : Nat) ≠ 577 by decide), cycFAT,
      get?_set_self_of_lt (show 577 < (initFAT.set 576 577).length by
        rw [List.length_set, hlI]; decide)]
  have h3 : ((cycFAT.set 576 FREE).set 577 FREE).get? 576 = some FREE := by
    rw [get?_set_ne2 (show (577 : Nat) ≠ 576 by decide),
      get?_set_self_of_lt (show 576 < cycFAT.length by
        rw [cycFAT_length]; decide)]
  have h4 : (((cycFAT.set 576 FREE).set 577 FREE).set 576 FREE).get? 0 =
      some 1 := by
    rw [get?_set_ne2 (show (576 : Nat) ≠ 0 by decide),
      get?_set_ne2 (show (577 : Nat) ≠ 0 by decide),
      get?_set_ne2 (show (576 : Nat) ≠ 0 by decide), cycFAT,
      get?_set_ne2 (show (577 : Nat) ≠ 0 by decide),
      get?_set_ne2 (show (576 : Nat) ≠ 0 by decide),
      initFAT_get?_of_lt (show (0 : Nat) < TOTAL_UAs by decide), initFAT_getD]
    decide
  have h5 : ((((cycFAT.set 576 FREE).set 577 FREE).set 576 FREE).set 0
      FREE).get? 1 = some 1 := by
    rw [get?_set_ne2 (show (0 : Nat) ≠ 1 by decide),
      get?_set_ne2 (show (576 : Nat) ≠ 1 by decide),
      get?_set_ne2 (show (577 : Nat) ≠ 1 by decide),
      get?_set_ne2 (show (576 : Nat) ≠ 1 by decide), cycFAT,
      get?_set_ne2 (show (577 : Nat) ≠ 1 by decide),
      get?_set_ne2 (show (576 : Nat) ≠ 1 by decide),
      initFAT_get?_of_lt (show (1 : Nat) < TOTAL_UAs by decide), initFAT_getD]
    decide
  have h6 : (((((cycFAT.set 576 FREE).set 577 FREE).set 576 FREE).set 0
      FREE).set 1 FREE).get? 1 = some FREE := by
    rw [get?_set_self_of_lt]
    simp only [List.length_set]
    rw [cycFAT_length]
    decide
  have h7 : ((((((cycFAT.set 576 FREE).set 577 FREE).set 576 FREE).set 0
      FREE).set 1 FREE).set 1 FREE).get? 0 = some FREE := by
    rw [get?_set_ne2 (show (1 : Nat) ≠ 0 by decide),
      get?_set_ne2 (show (1 : Nat) ≠ 0 by decide),
      get?_set_self_of_lt]
    simp only [List.length_set]
    rw [cycFAT_length]
    decide
  refine freeChainLoop_step 576 577 (by decide) (by decide) h1 ?_
  refine freeChainLoop_step 577 576 (by decide) (by decide) h2 ?_
  refine freeChainLoop_step 576 0 (by decide) (by decide) h3 ?_
  refine freeChainLoop_step 0 1 (by decide) (by decide) h4 ?_
  refine freeChainLoop_step 1 1 (by decide) (by decide) h5 ?_
  refine freeChainLoop_step 1 0 (by decide) (by decide) h6 ?_
  exact freeChainLoop_selfLoop _ h7

/-- The chain-reading loop of COPY also never terminates on a two-cycle. -/
theorem readChainLoop_cycle2 :
    ∀ (fuel : Nat) (fat hdd : List Nat) (u v : Nat), u ≠ EOF → v ≠ EOF →
      fat.get? u = some v → fat.get? v = some u →
      readChainLoop fuel u fat hdd = none
  | 0, _, _, _, _, _, _, _, _ => rfl
  | fuel + 1, fat, hdd, u, v, hu, hv, huv, hvu => by
      simp only [readChainLoop, if_neg hu, huv]
      rw [readChainLoop_cycle2 fuel fat hdd v u hv hu hvu huv]
      rfl

theorem cycFAT_get_576 : cycFAT.get? 576 = some 577 := by
  rw [cycFAT, get?_set_ne2 (show (577 : Nat) ≠ 576 by decide),
    get?_set_self_of_lt (show 576 < initFAT.length by
      rw [initFAT_length]; decide)]

theorem cycFAT_get_577 : cycFAT.get? 577 = some 576 := by
  rw [cycFAT, get?_set_self_of_lt (show 577 < (initFAT.set 576 577).length by
    rw [List.length_set, initFAT_length]; decide)]

/-! ## The claims -/

/-- C1 (confirmed).  Chain well-formedness invariant: in every state
reachable from the initial state by completed operations, every live
directory entry with positive size has a chain that, following the
allocator-table links from its start unit, consists of exactly
`ceil(size / unit_size)` units, all inside the allocatable pool and
pairwise distinct, whose interior links each point at the next unit and
whose last unit is marked `EndOfChain`; and no unit belongs to the chains
of two different live entries at once. -/
theorem c1_chain_invariant (s : State) (h : Reach initState s) :
    (∀ f ∈ s.ROOT, 0 < f.size →
      Links s.FAT (entryUnits s.FAT f) ∧
      (entryUnits s.FAT f).length = ceilUAs f.size ∧
      (entryUnits s.FAT f).head? = some f.startUA ∧
      (∀ u ∈ entryUnits s.FAT f,
        UAs_for_FAT + UAs_for_ROOT ≤ u ∧ u < TOTAL_UAs) ∧
      (entryUnits s.FAT f).Nodup) ∧
    s.ROOT.Pairwise
      (fun f g => ∀ u, u ∈ entryUnits s.FAT f → u ∈ entryUnits s.FAT g → False) := by
  have hwf := WF_reach WF_initState h
  refine ⟨?_, hwf.2.2⟩
  intro f hf _
  have hg := hwf.2.1 f hf
  exact ⟨goodChain_links hwf.1 hg, chainOf_length _ _ _,
    entryUnits_head s.FAT hg.1, hg.2.2.1, hg.2.2.2.1⟩

theorem c1_chain_invariant_witness :
    (∀ f ∈ initState.ROOT, 0 < f.size →
      Links initState.FAT (entryUnits initState.FAT f) ∧
      (entryUnits initState.FAT f).length = ceilUAs f.size ∧
      (entryUnits initState.FAT f).head? = some f.startUA ∧
      (∀ u ∈ entryUnits initState.FAT f,
        UAs_for_FAT + UAs_for_ROOT ≤ u ∧ u < TOTAL_UAs) ∧
      (entryUnits initState.FAT f).Nodup) ∧
    initState.ROOT.Pairwise
      (fun f g => ∀ u, u ∈ entryUnits initState.FAT f →
        u ∈ entryUnits initState.FAT g → False) :=
  c1_chain_invariant initState Relation.ReflTransGen.refl

/-- C2 (confirmed).  First-fit allocation: the free scan returns exactly
the Free units of the allocatable pool `[R_alloc + R_dir, total)`, in
ascending index order; a request for more units than are free fails
leaving the state untouched; otherwise the allocator returns the first
free unit and links exactly the `count` lowest-indexed free units into a
chain, in ascending order, changing no other unit. -/
theorem c2_first_fit (s : State) (n : Nat) (content : List Nat)
    (hlen : s.FAT.length = TOTAL_UAs) :
    (∀ i, i ∈ findFreeUAs s.FAT ↔
      (UAs_for_FAT + UAs_for_ROOT ≤ i ∧ i < TOTAL_UAs ∧
        s.FAT.getD i FREE = FREE)) ∧
    (findFreeUAs s.FAT).Pairwise (· < ·) ∧
    ((findFreeUAs s.FAT).length < n →
      allocateUAsAndWrite content n s = (none, s)) ∧
    (¬ (findFreeUAs s.FAT).length < n →
      (allocateUAsAndWrite content n s).1 =
        some (((findFreeUAs s.FAT).take n).getD 0 0) ∧
      (∀ x d, x ∉ (findFreeUAs s.FAT).take n →
        (allocateUAsAndWrite content n s).2.FAT.getD x d = s.FAT.getD x d) ∧
      LinksD (allocateUAsAndWrite content n s).2.FAT
        ((findFreeUAs s.FAT).take n) ∧
      ((findFreeUAs s.FAT).take n ≠ [] →
        (allocateUAsAndWrite content n s).2.FAT.getD
          (((findFreeUAs s.FAT).take n).getLastD 0) FREE = EOF)) := by
  refine ⟨?_, findFreeUAs_sorted s.FAT, fun h => allocateUAsAndWrite_fail h, ?_⟩
  · intro i
    rw [mem_findFreeUAs]
    constructor
    · rintro ⟨ha, hb, hc⟩
      refine ⟨ha, hb, ?_⟩
      rwa [getD_of_lt (by omega) FREE BAD]
    · rintro ⟨ha, hb, hc⟩
      refine ⟨ha, hb, ?_⟩
      rwa [getD_of_lt (by omega) BAD FREE]
  · intro h
    have hnodup : ((findFreeUAs s.FAT).take n).Nodup :=
      List.Nodup.sublist (List.take_sublist _ _) (findFreeUAs_nodup _)
    have htlen : ((findFreeUAs s.FAT).take n).length = n := by
      rw [List.length_take]; omega
    have hboundx : ∀ x ∈ (findFreeUAs s.FAT).take n, x < s.FAT.length :=
      fun x hx => findFreeUAs_lt_length (List.take_subset _ _ hx)
    have hl := allocStep_links content n ((findFreeUAs s.FAT).take n) 0
      s.FAT s.HDD hnodup (by omega) hboundx
    rw [allocateUAsAndWrite_succ h]
    exact ⟨rfl,
      fun x d hx => allocStep_fst_getD_not_mem content n _ 0 s.FAT s.HDD x d hx,
      hl.1, hl.2⟩

theorem c2_first_fit_witness :
    (∀ i, i ∈ findFreeUAs initState.FAT ↔
      (UAs_for_FAT + UAs_for_ROOT ≤ i ∧ i < TOTAL_UAs ∧
        initState.FAT.getD i FREE = FREE)) ∧
    (findFreeUAs initState.FAT).Pairwise (· < ·) ∧
    ((findFreeUAs initState.FAT).length < 1 →
      allocateUAsAndWrite [] 1 initState = (none, initState)) ∧
    (¬ (findFreeUAs initState.FAT).length < 1 →
      (allocateUAsAndWrite [] 1 initState).1 =
        some (((findFreeUAs initState.FAT).take 1).getD 0 0) ∧
      (∀ x d, x ∉ (findFreeUAs initState.FAT).take 1 →
        (allocateUAsAndWrite [] 1 initState).2.FAT.getD x d =
          initState.FAT.getD x d) ∧
      LinksD (allocateUAsAndWrite [] 1 initState).2.FAT
        ((findFreeUAs initState.FAT).take 1) ∧
      ((findFreeUAs initState.FAT).take 1 ≠ [] →
        (allocateUAsAndWrite [] 1 initState).2.FAT.getD
          (((findFreeUAs initState.FAT).take 1).getLastD 0) FREE = EOF)) :=
  c2_first_fit initState 1 [] initFAT_length

/-- C3 (confirmed).  Failure atomicity: whenever an operation reports a
non-`ok` result (`AlreadyExists`, `NotFound`, `InvalidMode`,
`InsufficientSpace`), the returned state is exactly the input state —
allocator table, directory table and storage buffer unchanged.  In
particular a CREATE that fails for insufficient space writes nothing. -/
theorem c3_failure_atomicity :
    (∀ (s : State) (nm ex mode : List Char) (size : Nat),
      (handleCREATE s nm ex size mode).2 ≠ Result.ok →
      (handleCREATE s nm ex size mode).1 = s) ∧
    (∀ (fuel : Nat) (s : State) (nm ex : List Char) (p : State × Result),
      handleDELETE fuel s nm ex = some p → p.2 ≠ Result.ok → p.1 = s) ∧
    (∀ (s : State) (a b c d : List Char),
      (handleRENAME s a b c d).2 ≠ Result.ok →
      (handleRENAME s a b c d).1 = s) ∧
    (∀ (fuel : Nat) (s : State) (a b c d : List Char) (p : State × Result),
      handleCOPY fuel s a b c d = some p → p.2 ≠ Result.ok → p.1 = s) := by
  refine ⟨?_, ?_, ?_, ?_⟩
  · intro s nm ex mode size hne
    by_cases h1 : (findFileIndex s.ROOT nm ex).isSome
    · simp only [handleCREATE, if_pos h1]
    · by_cases h2 : (generateContent size mode).isEmpty
      · simp only [handleCREATE, if_neg h1, if_pos h2]
      · by_cases h3 : (findFreeUAs s.FAT).length < ceilUAs size
        · simp only [handleCREATE, if_neg h1, if_neg h2,
            allocateUAsAndWrite_fail h3]
        · exfalso
          apply hne
          simp only [handleCREATE, if_neg h1, if_neg h2,
            allocateUAsAndWrite_succ h3]
  · intro fuel s nm ex p hp hne
    cases hidx : findFileIndex s.ROOT nm ex with
    | none =>
        simp only [handleDELETE, hidx] at hp
        cases hp
        rfl
    | some index =>
        cases hloopv : freeChainLoop fuel (s.ROOT.getD index default).startUA
            s.FAT with
        | none =>
            simp only [handleDELETE, hidx, hloopv] at hp
            exact absurd hp (by simp)
        | some fat2 =>
            simp only [handleDELETE, hidx, hloopv] at hp
            cases Option.some.inj hp
            exact absurd rfl hne
  · intro s a b c d hne
    cases hidx : findFileIndex s.ROOT a b with
    | none => simp only [handleRENAME, hidx]
    | some index =>
        exfalso
        apply hne
        simp only [handleRENAME, hidx]
  · intro fuel s a b c d p hp hne
    cases hidx : findFileIndex s.ROOT a b with
    | none =>
        simp only [handleCOPY, hidx] at hp
        cases hp
        rfl
    | some srcIndex =>
        by_cases hdst : (findFileIndex s.ROOT c d).isSome
        · simp only [handleCOPY, hidx, if_pos hdst] at hp
          cases hp
          rfl
        · cases hread : readChainLoop fuel (s.ROOT.getD srcIndex default).startUA
              s.FAT s.HDD with
          | none =>
              simp only [handleCOPY, hidx, if_neg hdst, hread] at hp
              exact absurd hp (by simp)
          | some content =>
              by_cases hsp : (findFreeUAs s.FAT).length <
                  ceilUAs (s.ROOT.getD srcIndex default).size
              · simp only [handleCOPY, hidx, if_neg hdst, hread,
                  allocateUAsAndWrite_fail hsp] at hp
                cases Option.some.inj hp
                rfl
              · simp only [handleCOPY, hidx, if_neg hdst, hread,
                  allocateUAsAndWrite_succ hsp] at hp
                cases Option.some.inj hp
                exact absurd rfl hne

theorem c3_failure_atomicity_witness :
    (handleCREATE initState ['a'] ['b'] 0 ['x']).1 = initState ∧
    ((initState, Result.notFound) : State × Result).1 = initState ∧
    (handleRENAME initState ['a'] ['b'] ['c'] ['d']).1 = initState ∧
    ((initState, Result.notFound) : State × Result).1 = initState :=
  ⟨c3_failure_atomicity.1 initState ['a'] ['b'] ['x'] 0 (by decide),
   c3_failure_atomicity.2.1 5 initState ['a'] ['b'] (initState, Result.notFound)
     rfl (by decide),
   c3_failure_atomicity.2.2.1 initState ['a'] ['b'] ['c'] ['d'] (by decide),
   c3_failure_atomicity.2.2.2 5 initState ['a'] ['b'] ['c'] ['d']
     (initState, Result.notFound) rfl (by decide)⟩

/-- C7 (code_bug).  RENAME performs no destination-key check: renaming
`c.d` to `a.b` in a directory that already contains `a.b` succeeds and
leaves two live entries with the same (name, extension) key, violating
the directory uniqueness invariant. -/
theorem c7_rename_duplicate_key :
    (handleRENAME
      { initState with
        ROOT := [File.make ['a'] ['b'] 16 576 0, File.make ['c'] ['d'] 16 577 0] }
      ['c'] ['d'] ['a'] ['b']).2 = Result.ok ∧
    ((handleRENAME
      { initState with
        ROOT := [File.make ['a'] ['b'] 16 576 0, File.make ['c'] ['d'] 16 577 0] }
      ['c'] ['d'] ['a'] ['b']).1.ROOT.map (fun f => (f.name, f.extension))) =
      [(['a'], ['b']), (['a'], ['b'])] := by
  constructor
  · rfl
  · rfl

/-- C8 (code_bug).  RENAME stores the new name and extension verbatim:
renaming to a 12-character name and 4-character extension stores them
untruncated, while entry creation (`File.__init__`) would have truncated
them to 8 and 3 characters. -/
theorem c8_rename_no_truncation :
    (handleRENAME { initState with ROOT := [File.make ['a'] ['b'] 16 576 0] }
      ['a'] ['b'] "abcdefghijkl".toList "txtx".toList).2 = Result.ok ∧
    ((handleRENAME { initState with ROOT := [File.make ['a'] ['b'] 16 576 0] }
      ['a'] ['b'] "abcdefghijkl".toList "txtx".toList).1.ROOT.getD 0
        default).name.length = 12 ∧
    ((handleRENAME { initState with ROOT := [File.make ['a'] ['b'] 16 576 0] }
      ['a'] ['b'] "abcdefghijkl".toList "txtx".toList).1.ROOT.getD 0
        default).extension.length = 4 ∧
    (File.make "abcdefghijkl".toList "txtx".toList 16 576 0).name.length = 8 ∧
    (File.make "abcdefghijkl".toList "txtx".toList 16 576 0).extension.length = 3 := by
  refine ⟨rfl, rfl, rfl, rfl, rfl⟩

/-- C9 (code_bug).  The chain walks of DELETE and COPY are unbounded in
the source: on an allocator table where units 576 and 577 point at each
other, deleting (or copying) the file whose chain starts at unit 576
never terminates, for every fuel bound — in particular the walk is not
stopped after the total unit count and no `CorruptChain` diagnosis is
ever produced. -/
theorem c9_unbounded_chain_walk :
    (∀ fuel, handleDELETE fuel cycState ['x'] ['y'] = none) ∧
    (∀ fuel, handleCOPY fuel cycState ['x'] ['y'] ['c'] ['d'] = none) := by
  constructor
  · intro fuel
    have hidx : findFileIndex cycState.ROOT ['x'] ['y'] = some 0 := rfl
    simp only [handleDELETE, hidx]
    rw [show (cycState.ROOT.getD 0 default).startUA = 576 from rfl,
      show cycState.FAT = cycFAT from rfl, cyc_div fuel]
  · intro fuel
    have hidx : findFileIndex cycState.ROOT ['x'] ['y'] = some 0 := rfl
    have hdst : ¬ (findFileIndex cycState.ROOT ['c'] ['d']).isSome := by decide
    simp only [handleCOPY, hidx, if_neg hdst]
    rw [show (cycState.ROOT.getD 0 default).startUA = 576 from rfl,
      show cycState.FAT = cycFAT from rfl,
      readChainLoop_cycle2 fuel cycFAT cycState.HDD 576 577 (by decide)
        (by decide) cycFAT_get_576 cycFAT_get_577]

/-- C10 (confirmed).  A CREATE with size 0 always fails and mutates
nothing: the generated content is empty, so when the key is fresh the
handler takes the invalid-mode branch whatever the mode was (an existing
key fails even earlier, with `AlreadyExists`).  Consequently every live
entry in a reachable state has positive size, and its chain has at least
one unit. -/
theorem c10_create_size_zero :
    (∀ (s : State) (nm ex mode : List Char),
      (handleCREATE s nm ex 0 mode).1 = s ∧
      (handleCREATE s nm ex 0 mode).2 ≠ Result.ok ∧
      (findFileIndex s.ROOT nm ex = none →
        (handleCREATE s nm ex 0 mode).2 = Result.invalidMode)) ∧
    (∀ s, Reach initState s → ∀ f ∈ s.ROOT,
      1 ≤ f.size ∧ 1 ≤ (entryUnits s.FAT f).length) := by
  constructor
  · intro s nm ex mode
    by_cases h1 : (findFileIndex s.ROOT nm ex).isSome
    · refine ⟨by simp only [handleCREATE, if_pos h1],
        by simp only [handleCREATE, if_pos h1]; decide, ?_⟩
      intro hnone
      rw [hnone] at h1
      exact absurd h1 (by simp)
    · have hempty : (generateContent 0 mode).isEmpty := by
        rw [generateContent_zero]
        rfl
      exact ⟨by simp only [handleCREATE, if_neg h1, if_pos hempty],
        by simp only [handleCREATE, if_neg h1, if_pos hempty]; decide,
        fun _ => by simp only [handleCREATE, if_neg h1, if_pos hempty]⟩
  · intro s hr f hf
    have hwf := WF_reach WF_initState hr
    have hg := hwf.2.1 f hf
    refine ⟨hg.1, ?_⟩
    rw [entryUnits, chainOf_length]
    have := ceilUAs_pos hg.1
    omega

theorem c10_create_size_zero_witness :
    ((handleCREATE initState ['a'] ['b'] 0 "-ALFA".toList).1 = initState ∧
     (handleCREATE initState ['a'] ['b'] 0 "-ALFA".toList).2 ≠ Result.ok ∧
     (findFileIndex initState.ROOT ['a'] ['b'] = none →
       (handleCREATE initState ['a'] ['b'] 0 "-ALFA".toList).2 =
         Result.invalidMode)) ∧
    (∀ f ∈ initState.ROOT,
      1 ≤ f.size ∧ 1 ≤ (entryUnits initState.FAT f).length) :=
  ⟨c10_create_size_zero.1 initState ['a'] ['b'] "-ALFA".toList,
   c10_create_size_zero.2 initState Relation.ReflTransGen.refl⟩

/-! ### Concrete evaluation helpers -/

theorem list_eq_of_getD {l1 l2 : List Nat} (hlen : l1.length = l2.length)
    (h : ∀ i, i < l1.length → l1.getD i 0 = l2.getD i 0) : l1 = l2 := by
  refine List.ext_getElem hlen (fun i h1 h2 => ?_)
  have := h i h1
  rwa [List.getD_eq_getElem?_getD, List.getD_eq_getElem?_getD,
    List.getElem?_eq_getElem h1, List.getElem?_eq_getElem h2] at this

/-- Inversion of a successful CREATE. -/
theorem handleCREATE_ok_inv {s : State} {nm ex mode : List Char} {size : Nat}
    {s1 : State} (hok : handleCREATE s nm ex size mode = (s1, Result.ok)) :
    ¬ (findFileIndex s.ROOT nm ex).isSome ∧
    ¬ (generateContent size mode).isEmpty ∧
    ¬ (findFreeUAs s.FAT).length < ceilUAs size ∧
    s1 = { s with
      FAT := (allocStep (generateContent size mode) (ceilUAs size)
        ((findFreeUAs s.FAT).take (ceilUAs size)) 0 (s.FAT, s.HDD)).1
      HDD := (allocStep (generateContent size mode) (ceilUAs size)
        ((findFreeUAs s.FAT).take (ceilUAs size)) 0 (s.FAT, s.HDD)).2
      ROOT := s.ROOT ++ [File.make nm ex size
        (((findFreeUAs s.FAT).take (ceilUAs size)).getD 0 0) 0] } := by
  by_cases h1 : (findFileIndex s.ROOT nm ex).isSome
  · simp only [handleCREATE, if_pos h1] at hok
    exact absurd (congrArg Prod.snd hok) (by simp)
  · by_cases h2 : (generateContent size mode).isEmpty
    · simp only [handleCREATE, if_neg h1, if_pos h2] at hok
      exact absurd (congrArg Prod.snd hok) (by simp)
    · by_cases h3 : (findFreeUAs s.FAT).length < ceilUAs size
      · simp only [handleCREATE, if_neg h1, if_neg h2,
          allocateUAsAndWrite_fail h3] at hok
        exact absurd (congrArg Prod.snd hok) (by simp)
      · simp only [handleCREATE, if_neg h1, if_neg h2,
          allocateUAsAndWrite_succ h3] at hok
        exact ⟨h1, h2, h3, (congrArg Prod.fst hok).symm⟩

/-- On the freshly initialized device the whole allocatable pool is free. -/
theorem findFreeUAs_initState :
    findFreeUAs initState.FAT = List.range' 576 3520 := by
  rw [show findFreeUAs initState.FAT =
    (pyRange 576 4096).filter (fun i => initFAT.getD i BAD == FREE) from rfl]
  rw [show pyRange 576 4096 = List.range' 576 3520 from rfl]
  rw [List.filter_eq_self.mpr]
  intro a ha
  have hb := mem_pyRange.mp (show a ∈ pyRange 576 4096 from ha)
  rw [initFAT_getD]
  simp only [UAs_for_FAT, UAs_for_ROOT, TOTAL_UAs]
  rw [if_neg (by omega), if_neg (by omega), if_pos (by omega)]
  decide

theorem initHDD_length : initState.HDD.length = 65536 := by
  show initHDD.length = 65536
  rw [initHDD, List.length_replicate]
  rfl

/-! ### C4: the partial final block resizes the storage buffer -/

/-- C4 (code_bug).  `CREATE test.txt 20 -ALFA` on a fresh device needs two
units; the final block of the 20-byte content is only 4 bytes, and the
Python slice assignment `HDD[start:end] = content[...]` silently shrinks
the 65536-byte buffer to 65524 bytes instead of zero-padding the block —
the storage-size invariant of the claim is violated by the source. -/
theorem c4_partial_block_shrinks_storage :
    (handleCREATE initState "test".toList "txt".toList 20 "-ALFA".toList).2 =
      Result.ok ∧
    initState.HDD.length = HDD_SIZE ∧
    (handleCREATE initState "test".toList "txt".toList 20
      "-ALFA".toList).1.HDD.length = 65524 ∧
    (65524 : Nat) ≠ HDD_SIZE := by
  have h1 : ¬ (findFileIndex initState.ROOT "test".toList "txt".toList).isSome := by
    decide
  have h2 : ¬ (generateContent 20 "-ALFA".toList).isEmpty := by decide
  have hlenfree : (findFreeUAs initState.FAT).length = 3520 := by
    rw [findFreeUAs_initState, List.length_range']
  have hsp : ¬ (findFreeUAs initState.FAT).length < ceilUAs 20 := by
    rw [hlenfree]
    decide
  have htake : (findFreeUAs initState.FAT).take (ceilUAs 20) = [576, 577] := by
    rw [findFreeUAs_initState]
    decide
  have halloc : allocStep (generateContent 20 "-ALFA".toList) (ceilUAs 20)
      [576, 577] 0 (initState.FAT, initState.HDD) =
      ((initState.FAT.set 576 577).set 577 EOF,
       sliceAssign (sliceAssign initState.HDD 9216 9232
         (pySlice (generateContent 20 "-ALFA".toList) 0 16)) 9232 9248
         (pySlice (generateContent 20 "-ALFA".toList) 16 32)) := rfl
  have hcreate : handleCREATE initState "test".toList "txt".toList 20
      "-ALFA".toList =
      ({ initState with
          FAT := (initState.FAT.set 576 577).set 577 EOF
          HDD := sliceAssign (sliceAssign initState.HDD 9216 9232
            (pySlice (generateContent 20 "-ALFA".toList) 0 16)) 9232 9248
            (pySlice (generateContent 20 "-ALFA".toList) 16 32)
          ROOT := initState.ROOT ++
            [File.make "test".toList "txt".toList 20 576 0] },
       Result.ok) := by
    simp only [handleCREATE, if_neg h1, if_neg h2, allocateUAsAndWrite_succ hsp,
      htake, halloc]
    rfl
  have hC16 : (pySlice (generateContent 20 "-ALFA".toList) 0 16).length = 16 := by
    decide
  have hC4 : (pySlice (generateContent 20 "-ALFA".toList) 16 32).length = 4 := by
    decide
  have hL1 : (sliceAssign initState.HDD 9216 9232
      (pySlice (generateContent 20 "-ALFA".toList) 0 16)).length = 65536 := by
    rw [sliceAssign_length 9232 (by rw [initHDD_length]; decide), hC16,
      initHDD_length]
  have hL2 : (sliceAssign (sliceAssign initState.HDD 9216 9232
      (pySlice (generateContent 20 "-ALFA".toList) 0 16)) 9232 9248
      (pySlice (generateContent 20 "-ALFA".toList) 16 32)).length = 65524 := by
    rw [sliceAssign_length 9248 (by rw [hL1]; decide), hC4, hL1]
  refine ⟨by rw [hcreate], by rw [initHDD_length]; decide, ?_, by decide⟩
  rw [hcreate]
  exact hL2

/-! ### C5: create-then-delete round trip -/

/-- A device with one live file `abcdefgh.txt` occupying unit 576. -/
def oneFileState : State :=
  { initState with
    FAT := initFAT.set 576 EOF
    ROOT := [File.make "abcdefgh".toList "txt".toList 16 576 0] }

theorem findFreeUAs_set576 :
    findFreeUAs (initFAT.set 576 EOF) = List.range' 577 3519 := by
  rw [show findFreeUAs (initFAT.set 576 EOF) =
    List.filter (fun i => (initFAT.set 576 EOF).getD i BAD == FREE)
      (576 :: List.range' 577 3519) from rfl]
  rw [List.filter_cons]
  have hp576 : ((initFAT.set 576 EOF).getD 576 BAD == FREE) = false := by
    rw [List.getD_eq_getElem?_getD,
      List.getElem?_set_self (by rw [initFAT_length]; decide)]
    decide
  simp only [hp576, Bool.false_eq_true, if_neg (by decide : ¬ False)]
  rw [List.filter_eq_self.mpr]
  intro a ha
  rcases List.mem_range'.mp ha with ⟨j, hj, rfl⟩
  have hane : (576 : Nat) ≠ 577 + 1 * j := by omega
  rw [List.getD_eq_getElem?_getD, List.getElem?_set_ne hane,
    ← List.getD_eq_getElem?_getD, initFAT_getD]
  simp only [UAs_for_FAT, UAs_for_ROOT, TOTAL_UAs]
  rw [if_neg (by omega), if_neg (by omega), if_pos (by omega)]
  decide

/-- Creating the 9-character-named `abcdefghi.txt` next to `abcdefgh.txt`:
the untruncated name collides with nothing, so CREATE succeeds and
allocates unit 577. -/
def c5After : State :=
  { oneFileState with
    FAT := oneFileState.FAT.set 577 EOF
    HDD := sliceAssign oneFileState.HDD 9232 9248
      (pySlice (generateContent 1 "-ALFA".toList) 0 16)
    ROOT := oneFileState.ROOT ++
      [File.make "abcdefghi".toList "txt".toList 1 577 0] }

theorem c5_create_eval :
    handleCREATE oneFileState "abcdefghi".toList "txt".toList 1
      "-ALFA".toList = (c5After, Result.ok) := by
  have h1 : ¬ (findFileIndex oneFileState.ROOT "abcdefghi".toList
      "txt".toList).isSome := by decide
  have h2 : ¬ (generateContent 1 "-ALFA".toList).isEmpty := by decide
  have hfree : findFreeUAs oneFileState.FAT = List.range' 577 3519 := by
    rw [show oneFileState.FAT = initFAT.set 576 EOF from rfl]
    exact findFreeUAs_set576
  have hsp : ¬ (findFreeUAs oneFileState.FAT).length < ceilUAs 1 := by
    rw [hfree, List.length_range']
    decide
  have htake : (findFreeUAs oneFileState.FAT).take (ceilUAs 1) = [577] := by
    rw [hfree]
    decide
  have halloc : allocStep (generateContent 1 "-ALFA".toList) (ceilUAs 1)
      [577] 0 (oneFileState.FAT, oneFileState.HDD) =
      (oneFileState.FAT.set 577 EOF,
       sliceAssign oneFileState.HDD 9232 9248
         (pySlice (generateContent 1 "-ALFA".toList) 0 16)) := rfl
  simp only [handleCREATE, if_neg h1, if_neg h2, allocateUAsAndWrite_succ hsp,
    htake, halloc]
  rfl

/-- A one-unit chain (`FAT[u] = EOF`) is freed in two loop iterations. -/
theorem freeChainLoop_single (u : Nat) (fat : List Nat) (hu : u ≠ EOF)
    (hget : fat.get? u = some EOF) (fuel : Nat) (hf : 2 ≤ fuel) :
    freeChainLoop fuel u fat = some (fat.set u FREE) := by
  cases fuel with
  | zero => omega
  | succ m =>
      simp only [freeChainLoop, if_neg hu, hget,
        if_neg (by simp : ¬ (EOF ≠ EOF))]
      rw [freeChainLoop_eof, if_pos (by omega)]

/-- C5 (corrected; counterexample to the claim as stated).  CREATE applies
8/3-character truncation to the stored key, while the lookup in CREATE
uses the untruncated key.  With `abcdefgh.txt` live, creating
`abcdefghi.txt` (9-character name) succeeds, but "deleting that file"
cannot restore the allocator: deletion by the name used at creation
reports NotFound and changes nothing, and deletion by the truncated
stored name removes the older shadowing file instead.  Either way unit
577, free before the CREATE, remains chained afterwards. -/
theorem c5_round_trip_counterexample :
    handleCREATE oneFileState "abcdefghi".toList "txt".toList 1
      "-ALFA".toList = (c5After, Result.ok) ∧
    handleDELETE TOTAL_UAs c5After "abcdefghi".toList "txt".toList =
      some (c5After, Result.notFound) ∧
    handleDELETE TOTAL_UAs c5After "abcdefgh".toList "txt".toList =
      some ({ c5After with
        FAT := c5After.FAT.set 576 FREE
        ROOT := c5After.ROOT.eraseIdx 0 }, Result.ok) ∧
    c5After.FAT.getD 577 FREE = EOF ∧
    (c5After.FAT.set 576 FREE).getD 577 FREE = EOF ∧
    oneFileState.FAT.getD 577 FREE = FREE := by
  have hL : initFAT.length = 4096 := initFAT_length
  refine ⟨c5_create_eval, ?_, ?_, ?_, ?_, ?_⟩
  · have hnone : findFileIndex c5After.ROOT "abcdefghi".toList
        "txt".toList = none := by decide
    simp only [handleDELETE, hnone]
  · have hsome : findFileIndex c5After.ROOT "abcdefgh".toList
        "txt".toList = some 0 := by decide
    have hstart : (c5After.ROOT.getD 0 default).startUA = 576 := by decide
    have hget : c5After.FAT.get? 576 = some EOF := by
      rw [show c5After.FAT = (initFAT.set 576 EOF).set 577 EOF from rfl,
        get?_set_ne2 (show (577 : Nat) ≠ 576 by decide),
        get?_set_self_of_lt (by rw [hL]; decide)]
    simp only [handleDELETE, hsome, hstart,
      freeChainLoop_single 576 c5After.FAT (by decide) hget TOTAL_UAs
        (by decide)]
  · rw [show c5After.FAT = (initFAT.set 576 EOF).set 577 EOF from rfl,
      List.getD_eq_getElem?_getD,
      List.getElem?_set_self (by rw [List.length_set, hL]; decide)]
    rfl
  · rw [show c5After.FAT = (initFAT.set 576 EOF).set 577 EOF from rfl,
      List.getD_eq_getElem?_getD, List.getElem?_set_ne
        (show (576 : Nat) ≠ 577 by decide),
      List.getElem?_set_self (by rw [List.length_set, hL]; decide)]
    rfl
  · rw [show oneFileState.FAT = initFAT.set 576 EOF from rfl,
      List.getD_eq_getElem?_getD, List.getElem?_set_ne
        (show (576 : Nat) ≠ 577 by decide),
      ← List.getD_eq_getElem?_getD, initFAT_getD]
    decide

/-- Deleting a freshly created file (stored under its untruncated key)
restores the allocator table and the directory exactly. -/
theorem freshState_delete (s : State) (content alloc : List Nat) (n : Nat)
    (nm ex : List Char) (size : Nat)
    (halloc : alloc = (findFreeUAs s.FAT).take n)
    (hlen : alloc.length = n) (hpos : 0 < n) (hfuel : n + 1 ≤ TOTAL_UAs)
    (hnm : nm.length ≤ 8) (hex : ex.length ≤ 3)
    (hfind1 : findFileIndex s.ROOT nm ex = none) :
    handleDELETE TOTAL_UAs
      { s with
        FAT := (allocStep content n alloc 0 (s.FAT, s.HDD)).1
        HDD := (allocStep content n alloc 0 (s.FAT, s.HDD)).2
        ROOT := s.ROOT ++ [File.make nm ex size (alloc.getD 0 0) 0] }
      nm ex =
      some ({ s with
        FAT := s.FAT
        HDD := (allocStep content n alloc 0 (s.FAT, s.HDD)).2
        ROOT := s.ROOT }, Result.ok) := by
  have hnodup : alloc.Nodup := by
    rw [halloc]
    exact List.Nodup.sublist (List.take_sublist _ _) (findFreeUAs_nodup _)
  have hsub : ∀ x ∈ alloc, x ∈ findFreeUAs s.FAT := by
    intro x hx
    rw [halloc] at hx
    exact List.take_subset _ _ hx
  have hltf : ∀ x ∈ alloc, x < s.FAT.length :=
    fun x hx => findFreeUAs_lt_length (hsub x hx)
  have hfree : ∀ x ∈ alloc, s.FAT.getD x FREE = FREE := by
    intro x hx
    have := (mem_findFreeUAs.mp (hsub x hx)).2.2
    rwa [getD_of_lt (hltf x hx) BAD FREE] at this
  have hpool : ∀ x ∈ alloc, UAs_for_FAT + UAs_for_ROOT ≤ x ∧ x < TOTAL_UAs := by
    intro x hx
    have := mem_findFreeUAs.mp (hsub x hx)
    exact ⟨this.1, this.2.1⟩
  have hne : alloc ≠ [] := by
    intro h0
    rw [h0] at hlen
    simp at hlen
    omega
  obtain ⟨a, rest, hcons⟩ := List.exists_cons_of_ne_nil hne
  have hname : ∀ w : Nat, (File.make nm ex size w 0).name = nm := by
    intro w
    rw [show (File.make nm ex size w 0).name = nm.take 8 from rfl]
    exact List.take_of_length_le hnm
  have hext : ∀ w : Nat, (File.make nm ex size w 0).extension = ex := by
    intro w
    rw [show (File.make nm ex size w 0).extension = ex.take 3 from rfl]
    exact List.take_of_length_le hex
  have hstart : (File.make nm ex size (alloc.getD 0 0) 0).startUA = a := by
    rw [show (File.make nm ex size (alloc.getD 0 0) 0).startUA =
      alloc.getD 0 0 % 65536 from rfl, hcons,
      show (a :: rest).getD 0 0 = a from rfl]
    have := (hpool a (by rw [hcons]; exact List.mem_cons_self a rest)).2
    simp only [TOTAL_UAs] at this
    exact Nat.mod_eq_of_lt (by omega)
  have hfind : findFileIndex (s.ROOT ++ [File.make nm ex size (alloc.getD 0 0) 0])
      nm ex = some s.ROOT.length := by
    rw [findFileIndex] at hfind1 ⊢
    rw [List.findIdx?_append, hfind1]
    simp [List.findIdx?_cons, hname, hext]
  have hgetD : (s.ROOT ++ [File.make nm ex size (alloc.getD 0 0) 0]).getD
      s.ROOT.length default = File.make nm ex size (alloc.getD 0 0) 0 := by
    rw [List.getD_eq_getElem?_getD, List.getElem?_append_right (Nat.le_refl _)]
    simp
  have hlinks0 := allocStep_links content n alloc 0 s.FAT s.HDD hnodup
    (by omega) hltf
  have hF1len : (allocStep content n alloc 0 (s.FAT, s.HDD)).1.length =
      s.FAT.length := allocStep_fst_length content n alloc 0 s.FAT s.HDD
  have hlinks : Links (allocStep content n alloc 0 (s.FAT, s.HDD)).1 alloc :=
    links_of_linksD _ alloc hlinks0.1
      (fun x hx => by rw [hF1len]; exact hltf x hx)
      (fun _ => hlinks0.2 hne)
  have hbig : ∀ x ∈ a :: rest, BAD ≤ x := by
    intro x hx
    exact le_trans pool_ge_bad (hpool x (hcons ▸ hx)).1
  have hfreed : (a :: rest).foldl (fun t x => t.set x FREE)
      (allocStep content n alloc 0 (s.FAT, s.HDD)).1 = s.FAT := by
    rw [← hcons]
    refine list_eq_of_getD ?_ ?_
    · rw [foldl_set_length, hF1len]
    · intro i hi
      have hi2 : i < s.FAT.length := by
        rw [foldl_set_length, hF1len] at hi
        exact hi
      rw [foldl_set_getD]
      by_cases hmem : i ∈ alloc
      · rw [if_pos ⟨hmem, by rw [hF1len]; exact hi2⟩]
        exact (hfree i hmem).symm
      · rw [if_neg (by tauto)]
        exact allocStep_fst_getD_not_mem content n alloc 0 s.FAT s.HDD i 0 hmem
  have herase : (s.ROOT ++ [File.make nm ex size (alloc.getD 0 0) 0]).eraseIdx
      s.ROOT.length = s.ROOT := by
    rw [List.eraseIdx_append_of_length_le (Nat.le_refl _), Nat.sub_self]
    simp
  simp only [handleDELETE, hfind, hgetD, hstart]
  rw [freeChainLoop_spec rest (allocStep content n alloc 0 (s.FAT, s.HDD)).1 a
    (hcons ▸ hlinks) (hcons ▸ hnodup) hbig TOTAL_UAs]
  rw [if_pos (by rw [show (a :: rest).length = alloc.length by rw [hcons], hlen]; omega)]
  rw [hfreed]
  simp only [Option.some.injEq]
  rw [herase]

/-- C5 amended (proved).  The round trip does hold whenever the requested
name fits the fixed-width fields (name ≤ 8 characters, extension ≤ 3), so
that the stored key equals the key used for lookup: if CREATE succeeds,
deleting the file by the same name succeeds and restores the allocator
table (and the directory) exactly to their pre-create values. -/
theorem c5_round_trip_amended (s : State) (nm ex mode : List Char)
    (size : Nat) (hnm : nm.length ≤ 8) (hex : ex.length ≤ 3) (s1 : State)
    (hok : handleCREATE s nm ex size mode = (s1, Result.ok)) :
    handleDELETE TOTAL_UAs s1 nm ex =
      some ({ s1 with FAT := s.FAT, ROOT := s.ROOT }, Result.ok) := by
  obtain ⟨h1, h2, h3, hs1⟩ := handleCREATE_ok_inv hok
  subst hs1
  have hsz : 1 ≤ size := size_pos_of_content_ne h2
  have hposn : 0 < ceilUAs size := ceilUAs_pos hsz
  have hnle : ceilUAs size ≤ 3520 := by
    have h4 := findFreeUAs_length_le s.FAT
    simp only [TOTAL_UAs, UAs_for_FAT, UAs_for_ROOT] at h4
    omega
  exact freshState_delete s (generateContent size mode)
    ((findFreeUAs s.FAT).take (ceilUAs size)) (ceilUAs size) nm ex size rfl
    (by rw [List.length_take]; omega) hposn
    (by simp only [TOTAL_UAs]; omega) hnm hex
    (Option.not_isSome_iff_eq_none.mp h1)

theorem c5_round_trip_amended_witness :
    handleDELETE TOTAL_UAs
      (handleCREATE initState ['a'] ['b'] 1 "-ALFA".toList).1 ['a'] ['b'] =
      some ({ (handleCREATE initState ['a'] ['b'] 1 "-ALFA".toList).1 with
        FAT := initState.FAT
        ROOT := initState.ROOT }, Result.ok) :=
  c5_round_trip_amended initState ['a'] ['b'] "-ALFA".toList 1 (by decide)
    (by decide) (handleCREATE initState ['a'] ['b'] 1 "-ALFA".toList).1
    (by
      have h1 : ¬ (findFileIndex initState.ROOT ['a'] ['b']).isSome := by decide
      have h2 : ¬ (generateContent 1 "-ALFA".toList).isEmpty := by decide
      have hsp : ¬ (findFreeUAs initState.FAT).length < ceilUAs 1 := by
        rw [findFreeUAs_initState, List.length_range']
        decide
      simp only [handleCREATE, if_neg h1, if_neg h2,
        allocateUAsAndWrite_succ hsp])

/-! ### Storage-level facts about the allocation write loop -/

theorem flatten_length_blocks :
    ∀ (bs : List (List Nat)), (∀ x ∈ bs, x.length = UA) →
      bs.flatten.length = bs.length * UA
  | [], _ => rfl
  | x :: bs, h => by
      rw [List.flatten_cons, List.length_append, h x (by simp),
        flatten_length_blocks bs (fun y hy => h y (by simp [hy])),
        List.length_cons]
      ring

theorem pySlice_flatten_blocks :
    ∀ (bs : List (List Nat)) (j : Nat),
      (∀ x ∈ bs, x.length = UA) → j < bs.length →
      pySlice bs.flatten (j * UA) ((j + 1) * UA) = bs.getD j []
  | [], j, _, hj => by simp at hj
  | x :: bs, 0, h, _ => by
      have hx : x.length = UA := h x (by simp)
      rw [show (0 : Nat) * UA = 0 from Nat.zero_mul UA, pySlice,
        List.drop_zero, Nat.sub_zero, show (0 + 1) * UA = UA by ring,
        List.flatten_cons, List.take_append_of_le_length (by rw [hx]),
        ← hx, List.take_length]
      rfl
  | x :: bs, j + 1, h, hj => by
      have hx : x.length = UA := h x (by simp)
      have IH := pySlice_flatten_blocks bs j
        (fun y hy => h y (by simp [hy])) (by simp at hj; omega)
      rw [pySlice, List.flatten_cons,
        show (j + 1) * UA = x.length + j * UA by rw [hx]; ring,
        List.drop_append,
        show (j + 1 + 1) * UA - (x.length + j * UA) = UA by
          rw [hx]; simp only [UA]; omega]
      rw [pySlice, show (j + 1) * UA - j * UA = UA by
        simp only [UA]; omega] at IH
      rw [IH]
      rfl

theorem pool_block_bound {u : Nat} (h : u < TOTAL_UAs) :
    u * UA + UA ≤ HDD_SIZE := by
  simp only [TOTAL_UAs, UA, HDD_SIZE] at h ⊢
  omega

/-- Storage effect of the allocation write loop when every block is a full
unit: the buffer keeps its length, blocks of units outside the allocated
list are untouched, and the `j`-th allocated unit's block becomes the
`(i+j)`-th block of the content. -/
theorem allocStep_hdd (content : List Nat) (n : Nat) :
    ∀ (rest : List Nat) (i : Nat) (fat hdd : List Nat),
      rest.Nodup →
      (∀ x ∈ rest, x * UA + UA ≤ hdd.length) →
      ((i + rest.length) * UA ≤ content.length) →
      (allocStep content n rest i (fat, hdd)).2.length = hdd.length ∧
      (∀ v, v ∉ rest →
        blockAt (allocStep content n rest i (fat, hdd)).2 v = blockAt hdd v) ∧
      (∀ j, j < rest.length →
        blockAt (allocStep content n rest i (fat, hdd)).2 (rest.getD j 0) =
          pySlice content ((i + j) * UA) ((i + j + 1) * UA))
  | [], i, fat, hdd, _, _, _ => ⟨rfl, fun _ _ => rfl, fun j hj => by simp at hj⟩
  | u :: rest, i, fat, hdd, hnd, hb, hc => by
      have hbu : u * UA + UA ≤ hdd.length := hb u (by simp)
      have hblen : (pySlice content (i * UA) ((i + 1) * UA)).length = UA := by
        rw [pySlice_length]
        simp only [UA] at hc ⊢
        simp only [List.length_cons] at hc
        omega
      have hstep : allocStep content n (u :: rest) i (fat, hdd) =
          allocStep content n rest (i + 1)
            (if i < n - 1 then fat.set u (rest.headD 0) else fat.set u EOF,
             sliceAssign hdd (u * UA) (u * UA + UA)
               (pySlice content (i * UA) ((i + 1) * UA))) := rfl
      have hlen1 : (sliceAssign hdd (u * UA) (u * UA + UA)
          (pySlice content (i * UA) ((i + 1) * UA))).length = hdd.length := by
        rw [sliceAssign_length (u * UA + UA) (by omega), hblen]
        omega
      have hnm : u ∉ rest := by rw [List.nodup_cons] at hnd; exact hnd.1
      have IH := allocStep_hdd content n rest (i + 1)
        (if i < n - 1 then fat.set u (rest.headD 0) else fat.set u EOF)
        (sliceAssign hdd (u * UA) (u * UA + UA)
          (pySlice content (i * UA) ((i + 1) * UA)))
        (by rw [List.nodup_cons] at hnd; exact hnd.2)
        (fun x hx => by rw [hlen1]; exact hb x (by simp [hx]))
        (by
          simp only [List.length_cons] at hc
          simp only [UA] at hc ⊢
          omega)
      refine ⟨?_, ?_, ?_⟩
      · rw [hstep, IH.1, hlen1]
      · intro v hv
        rw [hstep, IH.2.1 v (fun hm => hv (by simp [hm])),
          blockAt_sliceAssign_ne (fun he => hv (by simp [he])) hblen hbu]
      · intro j hj
        cases j with
        | zero =>
            rw [show ((u :: rest).getD 0 0) = u from rfl, hstep,
              IH.2.1 u hnm, blockAt_sliceAssign_self hblen hbu]
            simp only [Nat.add_zero]
        | succ j =>
            rw [show ((u :: rest).getD (j + 1) 0) = rest.getD j 0 from rfl,
              hstep]
            rw [IH.2.2 j (by simp only [List.length_cons] at hj; omega)]
            rw [show i + 1 + j = i + (j + 1) by omega,
              show i + (j + 1) + 1 = i + (j + 1) + 1 from rfl]

theorem map_pySlice_eq_map_blockAt (hdd : List Nat) (l : List Nat) :
    l.map (fun x => pySlice hdd (x * UA) (x * UA + UA)) = l.map (blockAt hdd) :=
  rfl

theorem map_getD_nil {l : List Nat} {f : Nat → List Nat} {j : Nat}
    (hj : j < l.length) : (l.map f).getD j [] = f (l.getD j 0) := by
  rw [List.getD_eq_getElem?_getD, List.getD_eq_getElem?_getD,
    List.getElem?_eq_getElem (by simpa using hj), List.getElem?_eq_getElem hj,
    List.getElem_map]
  rfl

/-- Core facts about a completed physical copy: the fresh chain holds a
byte-for-byte copy of the source chain, on a disjoint set of units. -/
theorem copy_fresh_props (s : State) (alloc : List Nat) (n : Nat) (src : File)
    (nm ex : List Char)
    (hFATlen : s.FAT.length = TOTAL_UAs)
    (hgood : GoodChain s.FAT src)
    (halloc : alloc = (findFreeUAs s.FAT).take n)
    (hlen : alloc.length = n)
    (hn : n = ceilUAs src.size)
    (hlenH : s.HDD.length = HDD_SIZE) :
    (File.make nm ex src.size (alloc.getD 0 0) 0).size = src.size ∧
    (∀ u, u ∈ entryUnits
        (allocStep (((entryUnits s.FAT src).map (blockAt s.HDD)).flatten) n
          alloc 0 (s.FAT, s.HDD)).1
        (File.make nm ex src.size (alloc.getD 0 0) 0) →
      u ∈ entryUnits
        (allocStep (((entryUnits s.FAT src).map (blockAt s.HDD)).flatten) n
          alloc 0 (s.FAT, s.HDD)).1 src → False) ∧
    readChainLoop TOTAL_UAs (File.make nm ex src.size (alloc.getD 0 0) 0).startUA
      (allocStep (((entryUnits s.FAT src).map (blockAt s.HDD)).flatten) n
        alloc 0 (s.FAT, s.HDD)).1
      (allocStep (((entryUnits s.FAT src).map (blockAt s.HDD)).flatten) n
        alloc 0 (s.FAT, s.HDD)).2 =
    readChainLoop TOTAL_UAs src.startUA
      (allocStep (((entryUnits s.FAT src).map (blockAt s.HDD)).flatten) n
        alloc 0 (s.FAT, s.HDD)).1
      (allocStep (((entryUnits s.FAT src).map (blockAt s.HDD)).flatten) n
        alloc 0 (s.FAT, s.HDD)).2 ∧
    (readChainLoop TOTAL_UAs (File.make nm ex src.size (alloc.getD 0 0) 0).startUA
      (allocStep (((entryUnits s.FAT src).map (blockAt s.HDD)).flatten) n
        alloc 0 (s.FAT, s.HDD)).1
      (allocStep (((entryUnits s.FAT src).map (blockAt s.HDD)).flatten) n
        alloc 0 (s.FAT, s.HDD)).2).isSome := by
  -- abbreviations are kept as plain hypotheses to stay syntactically stable
  have hsz : 1 ≤ src.size := hgood.1
  have hposn : 0 < n := by rw [hn]; exact ceilUAs_pos hsz
  -- allocated-unit facts
  have hnodup : alloc.Nodup := by
    rw [halloc]
    exact List.Nodup.sublist (List.take_sublist _ _) (findFreeUAs_nodup _)
  have hsub : ∀ x ∈ alloc, x ∈ findFreeUAs s.FAT := by
    intro x hx
    rw [halloc] at hx
    exact List.take_subset _ _ hx
  have hltf : ∀ x ∈ alloc, x < s.FAT.length :=
    fun x hx => findFreeUAs_lt_length (hsub x hx)
  have hfree : ∀ x ∈ alloc, s.FAT.getD x FREE = FREE := by
    intro x hx
    have := (mem_findFreeUAs.mp (hsub x hx)).2.2
    rwa [getD_of_lt (hltf x hx) BAD FREE] at this
  have hpool : ∀ x ∈ alloc, UAs_for_FAT + UAs_for_ROOT ≤ x ∧ x < TOTAL_UAs := by
    intro x hx
    have := mem_findFreeUAs.mp (hsub x hx)
    exact ⟨this.1, this.2.1⟩
  have hne : alloc ≠ [] := by
    intro h0
    rw [h0] at hlen
    simp at hlen
    omega
  obtain ⟨a0, rest, hcons⟩ := List.exists_cons_of_ne_nil hne
  have ha0 : a0 ∈ alloc := by rw [hcons]; exact List.mem_cons_self a0 rest
  have hnle : n ≤ 3520 := by
    have h4 := findFreeUAs_length_le s.FAT
    simp only [TOTAL_UAs, UAs_for_FAT, UAs_for_ROOT] at h4
    have h5 : n ≤ (findFreeUAs s.FAT).length := by
      rw [halloc, List.length_take] at hlen
      omega
    omega
  -- source-chain facts
  have hsrclen : (entryUnits s.FAT src).length = n := by
    rw [entryUnits, chainOf_length, hn]
  have hsrc_not_free : ∀ x ∈ entryUnits s.FAT src, s.FAT.getD x FREE ≠ FREE :=
    goodChain_not_free hgood
  have hsrc_alloc : ∀ x ∈ entryUnits s.FAT src, x ∉ alloc := by
    intro x hx hmem
    exact hsrc_not_free x hx (hfree x hmem)
  have hsrc_pool := hgood.2.2.1
  have hblocks : ∀ y ∈ (entryUnits s.FAT src).map (blockAt s.HDD),
      y.length = UA := by
    intro y hy
    rcases List.mem_map.mp hy with ⟨x, hx, rfl⟩
    refine blockAt_length_of_le ?_
    rw [hlenH]
    exact pool_block_bound (hsrc_pool x hx).2
  have hclen : (((entryUnits s.FAT src).map (blockAt s.HDD)).flatten).length =
      n * UA := by
    rw [flatten_length_blocks _ hblocks, List.length_map, hsrclen]
  -- FAT after the write loop
  have hlinks0 := allocStep_links (((entryUnits s.FAT src).map
    (blockAt s.HDD)).flatten) n alloc 0 s.FAT s.HDD hnodup (by omega) hltf
  have hF1len : (allocStep (((entryUnits s.FAT src).map (blockAt s.HDD)).flatten)
      n alloc 0 (s.FAT, s.HDD)).1.length = s.FAT.length :=
    allocStep_fst_length _ n alloc 0 s.FAT s.HDD
  have hlinks : Links (allocStep (((entryUnits s.FAT src).map
      (blockAt s.HDD)).flatten) n alloc 0 (s.FAT, s.HDD)).1 alloc :=
    links_of_linksD _ alloc hlinks0.1
      (fun x hx => by rw [hF1len]; exact hltf x hx)
      (fun _ => hlinks0.2 hne)
  have hkeep : ∀ x ∈ entryUnits s.FAT src,
      (allocStep (((entryUnits s.FAT src).map (blockAt s.HDD)).flatten) n
        alloc 0 (s.FAT, s.HDD)).1.getD x FREE = s.FAT.getD x FREE :=
    fun x hx => allocStep_fst_getD_not_mem _ n alloc 0 s.FAT s.HDD x FREE
      (hsrc_alloc x hx)
  have hsrc_units_keep : entryUnits
      (allocStep (((entryUnits s.FAT src).map (blockAt s.HDD)).flatten) n
        alloc 0 (s.FAT, s.HDD)).1 src = entryUnits s.FAT src := by
    rw [entryUnits, entryUnits]
    exact chainOf_congr s.FAT _ _ _ (fun x hx => hkeep x hx)
  have hgood2 : GoodChain (allocStep (((entryUnits s.FAT src).map
      (blockAt s.HDD)).flatten) n alloc 0 (s.FAT, s.HDD)).1 src := by
    obtain ⟨g1, g2, g3, g4, g5⟩ := hgood
    refine ⟨g1, g2, ?_, ?_, ?_⟩
    · rw [hsrc_units_keep]; exact g3
    · rw [hsrc_units_keep]; exact g4
    · rw [hsrc_units_keep]
      have hlast_mem : (entryUnits s.FAT src).getLastD 0 ∈ entryUnits s.FAT src :=
        getLastD_mem _ (entryUnits_ne_nil s.FAT g1) 0
      rw [hkeep _ hlast_mem]
      exact g5
  have hsrc_links2 : Links (allocStep (((entryUnits s.FAT src).map
      (blockAt s.HDD)).flatten) n alloc 0 (s.FAT, s.HDD)).1
      (entryUnits s.FAT src) := by
    have := goodChain_links (by rw [hF1len, hFATlen]) hgood2
    rwa [hsrc_units_keep] at this
  -- the new entry and its chain
  have hsize2 : (File.make nm ex src.size (alloc.getD 0 0) 0).size = src.size := by
    rw [show (File.make nm ex src.size (alloc.getD 0 0) 0).size =
      src.size % 65536 from rfl]
    exact Nat.mod_eq_of_lt hgood.2.1
  have hstart2 : (File.make nm ex src.size (alloc.getD 0 0) 0).startUA = a0 := by
    rw [show (File.make nm ex src.size (alloc.getD 0 0) 0).startUA =
      alloc.getD 0 0 % 65536 from rfl, hcons,
      show (a0 :: rest).getD 0 0 = a0 from rfl]
    have := (hpool a0 ha0).2
    simp only [TOTAL_UAs] at this
    exact Nat.mod_eq_of_lt (by omega)
  have hunits2 : entryUnits (allocStep (((entryUnits s.FAT src).map
      (blockAt s.HDD)).flatten) n alloc 0 (s.FAT, s.HDD)).1
      (File.make nm ex src.size (alloc.getD 0 0) 0) = alloc := by
    have hLD : LinksD (allocStep (((entryUnits s.FAT src).map
        (blockAt s.HDD)).flatten) n alloc 0 (s.FAT, s.HDD)).1 (a0 :: rest) := by
      rw [← hcons]
      exact hlinks0.1
    have h2 := chainOf_of_linksD (allocStep (((entryUnits s.FAT src).map
      (blockAt s.HDD)).flatten) n alloc 0 (s.FAT, s.HDD)).1 rest a0 hLD
    rw [← hcons, hlen] at h2
    rw [entryUnits, hsize2, hstart2, ← hn]
    exact h2
  -- storage after the write loop
  have hhdd := allocStep_hdd (((entryUnits s.FAT src).map
    (blockAt s.HDD)).flatten) n alloc 0 s.FAT s.HDD hnodup
    (fun x hx => by
      rw [hlenH]
      exact pool_block_bound (hpool x hx).2)
    (by rw [hclen, Nat.zero_add, hlen])
  -- dest blocks are the content blocks, which are the source blocks
  have hdest_blocks : ∀ j, j < n →
      blockAt (allocStep (((entryUnits s.FAT src).map (blockAt s.HDD)).flatten)
        n alloc 0 (s.FAT, s.HDD)).2 (alloc.getD j 0) =
      blockAt s.HDD ((entryUnits s.FAT src).getD j 0) := by
    intro j hj
    rw [hhdd.2.2 j (by omega), Nat.zero_add,
      pySlice_flatten_blocks _ j hblocks (by rw [List.length_map, hsrclen]; omega),
      map_getD_nil (by rw [hsrclen]; omega)]
  have hsrc_blocks : ∀ x ∈ entryUnits s.FAT src,
      blockAt (allocStep (((entryUnits s.FAT src).map (blockAt s.HDD)).flatten)
        n alloc 0 (s.FAT, s.HDD)).2 x = blockAt s.HDD x :=
    fun x hx => hhdd.2.1 x (hsrc_alloc x hx)
  -- both chains read back the same bytes
  have hmap1 : alloc.map (blockAt (allocStep (((entryUnits s.FAT src).map
      (blockAt s.HDD)).flatten) n alloc 0 (s.FAT, s.HDD)).2) =
      (entryUnits s.FAT src).map (blockAt s.HDD) := by
    refine List.ext_getElem (by rw [List.length_map, List.length_map, hsrclen, hlen]) ?_
    intro j h1 h2
    rw [List.getElem_map, List.getElem_map]
    rw [List.length_map, hlen] at h1
    have hj1 := hdest_blocks j h1
    have hidxA : j < alloc.length := by rw [hlen]; exact h1
    have hidxS : j < (entryUnits s.FAT src).length := by rw [hsrclen]; exact h1
    rw [show alloc[j] = alloc.getD j 0 from (List.getD_eq_getElem alloc 0 hidxA).symm,
      hj1,
      show (entryUnits s.FAT src).getD j 0 = (entryUnits s.FAT src)[j] from
        List.getD_eq_getElem _ 0 hidxS]
  have hmap2 : (entryUnits s.FAT src).map (blockAt (allocStep
      (((entryUnits s.FAT src).map (blockAt s.HDD)).flatten) n alloc 0
      (s.FAT, s.HDD)).2) = (entryUnits s.FAT src).map (blockAt s.HDD) :=
    List.map_congr_left hsrc_blocks
  -- assemble
  obtain ⟨u0, us, hconsS⟩ :=
    List.exists_cons_of_ne_nil (entryUnits_ne_nil s.FAT hgood.1)
  have hstartS : src.startUA = u0 := by
    have := entryUnits_head s.FAT hgood.1
    rw [hconsS] at this
    simpa using this.symm
  have hbigS : ∀ x ∈ u0 :: us, BAD ≤ x := by
    intro x hx
    exact le_trans pool_ge_bad (hsrc_pool x (hconsS ▸ hx)).1
  have hbigA : ∀ x ∈ a0 :: rest, BAD ≤ x := by
    intro x hx
    exact le_trans pool_ge_bad (hpool x (hcons ▸ hx)).1
  have hreadA := readChainLoop_spec rest
    (allocStep (((entryUnits s.FAT src).map (blockAt s.HDD)).flatten) n
      alloc 0 (s.FAT, s.HDD)).1
    (allocStep (((entryUnits s.FAT src).map (blockAt s.HDD)).flatten) n
      alloc 0 (s.FAT, s.HDD)).2 a0 (hcons ▸ hlinks) hbigA TOTAL_UAs
  have hreadS := readChainLoop_spec us
    (allocStep (((entryUnits s.FAT src).map (blockAt s.HDD)).flatten) n
      alloc 0 (s.FAT, s.HDD)).1
    (allocStep (((entryUnits s.FAT src).map (blockAt s.HDD)).flatten) n
      alloc 0 (s.FAT, s.HDD)).2 u0 (hconsS ▸ hsrc_links2) hbigS TOTAL_UAs
  have hflA : (a0 :: rest).length < TOTAL_UAs := by
    rw [← hcons, hlen]
    simp only [TOTAL_UAs]
    omega
  have hflS : (u0 :: us).length < TOTAL_UAs := by
    rw [← hconsS, hsrclen]
    simp only [TOTAL_UAs]
    omega
  rw [if_pos hflA] at hreadA
  rw [if_pos hflS] at hreadS
  refine ⟨hsize2, ?_, ?_, ?_⟩
  · intro u hu1 hu2
    rw [hunits2] at hu1
    rw [hsrc_units_keep] at hu2
    exact hsrc_not_free u hu2 (hfree u hu1)
  · rw [hstart2, hstartS, hreadA, hreadS]
    rw [map_pySlice_eq_map_blockAt, map_pySlice_eq_map_blockAt]
    rw [← hcons, ← hconsS, hmap1, hmap2]
  · rw [hstart2, hreadA]
    rfl

/-- **C6** (amended; proved).  The original claim fails on states whose
storage buffer an earlier partial-final-block write has shrunk (see the
counterexample below): there a successful COPY can shift the source's own
bytes.  Restricted to well-formed states whose buffer still has its full
`HDD_SIZE` length, the claim holds: a successful Duplicate (COPY) appends a
new directory entry whose recorded size equals the source's size, whose
chain occupies a set of units disjoint from the source's chain, and whose
stored chain content reads back byte-for-byte identical to the source's
chain content. -/
theorem c6_duplicate (fuel : Nat) (s : State) (a b c d : List Char)
    (p : State × Result) (hwf : WF s) (hlenH : s.HDD.length = HDD_SIZE)
    (hp : handleCOPY fuel s a b c d = some p) (hok : p.2 = Result.ok) :
    ∃ i, findFileIndex s.ROOT a b = some i ∧
      ∃ newf, p.1.ROOT = s.ROOT ++ [newf] ∧
        newf.size = (s.ROOT.getD i default).size ∧
        (∀ u, u ∈ entryUnits p.1.FAT newf →
          u ∈ entryUnits p.1.FAT (s.ROOT.getD i default) → False) ∧
        readChainLoop TOTAL_UAs newf.startUA p.1.FAT p.1.HDD =
          readChainLoop TOTAL_UAs (s.ROOT.getD i default).startUA p.1.FAT
            p.1.HDD ∧
        (readChainLoop TOTAL_UAs newf.startUA p.1.FAT p.1.HDD).isSome := by
  cases hidx : findFileIndex s.ROOT a b with
  | none =>
      simp only [handleCOPY, hidx] at hp
      cases hp
      simp at hok
  | some srcIndex =>
      by_cases hdst : (findFileIndex s.ROOT c d).isSome
      · simp only [handleCOPY, hidx, if_pos hdst] at hp
        cases hp
        simp at hok
      · cases hread : readChainLoop fuel (s.ROOT.getD srcIndex default).startUA
            s.FAT s.HDD with
        | none =>
            simp only [handleCOPY, hidx, if_neg hdst, hread] at hp
            exact absurd hp (by simp)
        | some content =>
            have hlt : srcIndex < s.ROOT.length := (findFileIndex_some hidx).1
            have hgoodf := hwf.2.1 _ (getD_mem_of_lt hlt)
            have hlinksS : Links s.FAT
                (entryUnits s.FAT (s.ROOT.getD srcIndex default)) :=
              goodChain_links hwf.1 hgoodf
            obtain ⟨u0, us, hconsS⟩ := List.exists_cons_of_ne_nil
              (entryUnits_ne_nil s.FAT hgoodf.1)
            have hstartS : (s.ROOT.getD srcIndex default).startUA = u0 := by
              have := entryUnits_head s.FAT hgoodf.1
              rw [hconsS] at this
              simpa using this.symm
            have hbigS : ∀ x ∈ u0 :: us, BAD ≤ x := fun x hx =>
              le_trans pool_ge_bad (hgoodf.2.2.1 x (hconsS ▸ hx)).1
            have hread2 := hread
            rw [hstartS, readChainLoop_spec us s.FAT s.HDD u0
              (hconsS ▸ hlinksS) hbigS fuel] at hread2
            by_cases hfl : (u0 :: us).length < fuel
            · rw [if_pos hfl] at hread2
              have hcontent : content = ((entryUnits s.FAT
                  (s.ROOT.getD srcIndex default)).map (blockAt s.HDD)).flatten := by
                rw [hconsS, ← map_pySlice_eq_map_blockAt]
                exact (Option.some.inj hread2).symm
              subst hcontent
              simp only [handleCOPY, hidx, if_neg hdst, hread] at hp
              by_cases hsp : (findFreeUAs s.FAT).length <
                  ceilUAs (s.ROOT.getD srcIndex default).size
              · rw [allocateUAsAndWrite_fail hsp] at hp
                simp only [Option.some.injEq] at hp
                rw [← hp] at hok
                simp at hok
              · rw [allocateUAsAndWrite_succ hsp] at hp
                simp only [Option.some.injEq] at hp
                rw [← hp]
                have hlen2 : ((findFreeUAs s.FAT).take
                    (ceilUAs (s.ROOT.getD srcIndex default).size)).length =
                    ceilUAs (s.ROOT.getD srcIndex default).size := by
                  rw [List.length_take]
                  omega
                have hprops := copy_fresh_props s
                  ((findFreeUAs s.FAT).take
                    (ceilUAs (s.ROOT.getD srcIndex default).size))
                  (ceilUAs (s.ROOT.getD srcIndex default).size)
                  (s.ROOT.getD srcIndex default) c d hwf.1 hgoodf rfl hlen2
                  rfl hlenH
                exact ⟨srcIndex, rfl,
                  File.make c d (s.ROOT.getD srcIndex default).size
                    (((findFreeUAs s.FAT).take
                      (ceilUAs (s.ROOT.getD srcIndex default).size)).getD 0 0) 0,
                  rfl, hprops.1, hprops.2.1, hprops.2.2.1, hprops.2.2.2⟩
            · rw [if_neg hfl] at hread2
              exact absurd hread2 (by simp)

/-! ### A concrete successful COPY for the duplicate-correctness theorem -/

theorem oneFileState_FAT_length : oneFileState.FAT.length = TOTAL_UAs := by
  rw [show oneFileState.FAT = initFAT.set 576 EOF from rfl, List.length_set,
    initFAT_length]

theorem oneFileState_getD_576 : oneFileState.FAT.getD 576 FREE = EOF := by
  rw [show oneFileState.FAT = initFAT.set 576 EOF from rfl,
    List.getD_eq_getElem?_getD,
    List.getElem?_set_self (by rw [initFAT_length]; decide)]
  rfl

theorem oneFileState_entryUnits :
    entryUnits oneFileState.FAT
      (File.make "abcdefgh".toList "txt".toList 16 576 0) = [576] := rfl

theorem WF_oneFileState : WF oneFileState := by
  refine ⟨oneFileState_FAT_length, ?_, ?_⟩
  · intro f hf
    rw [show oneFileState.ROOT =
      [File.make "abcdefgh".toList "txt".toList 16 576 0] from rfl] at hf
    rcases List.mem_singleton.mp hf with rfl
    refine ⟨by decide, by decide, ?_, ?_, ?_⟩
    · rw [oneFileState_entryUnits]
      intro u hu
      rcases List.mem_singleton.mp hu with rfl
      decide
    · rw [oneFileState_entryUnits]
      decide
    · rw [oneFileState_entryUnits]
      exact oneFileState_getD_576
  · rw [show oneFileState.ROOT =
      [File.make "abcdefgh".toList "txt".toList 16 576 0] from rfl]
    exact List.pairwise_singleton _ _

/-- The bytes the COPY's read loop collects from `abcdefgh.txt`'s one-unit
chain. -/
def c6Content : List Nat :=
  (([576] : List Nat).map
    (fun x => pySlice oneFileState.HDD (x * UA) (x * UA + UA))).flatten

theorem oneFileState_read :
    readChainLoop 2 (oneFileState.ROOT.getD 0 default).startUA
      oneFileState.FAT oneFileState.HDD = some c6Content := by
  have hget : oneFileState.FAT.get? 576 = some EOF := by
    rw [get?_eq_some_getD FREE (by rw [oneFileState_FAT_length]; decide),
      oneFileState_getD_576]
  have hlinks1 : Links oneFileState.FAT [576] := hget
  have h0 := readChainLoop_spec [] oneFileState.FAT oneFileState.HDD 576
    hlinks1 (by decide) 2
  rw [if_pos (by decide)] at h0
  rw [show (oneFileState.ROOT.getD 0 default).startUA = 576 from rfl]
  exact h0

/-- The state-and-result pair a successful `COPY abcdefgh.txt copy.txt`
produces on `oneFileState`. -/
def c6Pair : State × Result :=
  ({ { oneFileState with
        FAT := (allocStep c6Content
          (ceilUAs (oneFileState.ROOT.getD 0 default).size)
          ((findFreeUAs oneFileState.FAT).take
            (ceilUAs (oneFileState.ROOT.getD 0 default).size)) 0
          (oneFileState.FAT, oneFileState.HDD)).1
        HDD := (allocStep c6Content
          (ceilUAs (oneFileState.ROOT.getD 0 default).size)
          ((findFreeUAs oneFileState.FAT).take
            (ceilUAs (oneFileState.ROOT.getD 0 default).size)) 0
          (oneFileState.FAT, oneFileState.HDD)).2 } with
      ROOT := oneFileState.ROOT ++
        [File.make "copy".toList "txt".toList
          (oneFileState.ROOT.getD 0 default).size
          (((findFreeUAs oneFileState.FAT).take
            (ceilUAs (oneFileState.ROOT.getD 0 default).size)).getD 0 0) 0] },
   Result.ok)

theorem handleCOPY_eval (fuel : Nat) (s : State) (a b c d : List Char)
    (i : Nat) (content : List Nat)
    (hidx : findFileIndex s.ROOT a b = some i)
    (hdst : ¬ ((findFileIndex s.ROOT c d).isSome = true))
    (hread : readChainLoop fuel (s.ROOT.getD i default).startUA s.FAT s.HDD =
      some content)
    (hsp : ¬ (findFreeUAs s.FAT).length <
      ceilUAs (s.ROOT.getD i default).size) :
    handleCOPY fuel s a b c d = some
      ({ { s with
            FAT := (allocStep content (ceilUAs (s.ROOT.getD i default).size)
              ((findFreeUAs s.FAT).take (ceilUAs (s.ROOT.getD i default).size))
              0 (s.FAT, s.HDD)).1
            HDD := (allocStep content (ceilUAs (s.ROOT.getD i default).size)
              ((findFreeUAs s.FAT).take (ceilUAs (s.ROOT.getD i default).size))
              0 (s.FAT, s.HDD)).2 } with
          ROOT := s.ROOT ++
            [File.make c d (s.ROOT.getD i default).size
              (((findFreeUAs s.FAT).take
                (ceilUAs (s.ROOT.getD i default).size)).getD 0 0) 0] },
       Result.ok) := by
  simp only [handleCOPY, hidx, if_neg hdst, hread, allocateUAsAndWrite_succ hsp]

theorem c6_copy_eval :
    handleCOPY 2 oneFileState "abcdefgh".toList "txt".toList "copy".toList
      "txt".toList = some c6Pair := by
  have hidx : findFileIndex oneFileState.ROOT "abcdefgh".toList "txt".toList =
      some 0 := by decide
  have hdst : ¬ ((findFileIndex oneFileState.ROOT "copy".toList
      "txt".toList).isSome = true) := by decide
  have hsp : ¬ (findFreeUAs oneFileState.FAT).length <
      ceilUAs (oneFileState.ROOT.getD 0 default).size := by
    rw [show oneFileState.FAT = initFAT.set 576 EOF from rfl, findFreeUAs_set576,
      List.length_range']
    decide
  exact handleCOPY_eval 2 oneFileState "abcdefgh".toList "txt".toList
    "copy".toList "txt".toList 0 c6Content hidx hdst oneFileState_read hsp

theorem c6_duplicate_witness :
    ∃ i, findFileIndex oneFileState.ROOT "abcdefgh".toList "txt".toList =
        some i ∧
      ∃ newf, c6Pair.1.ROOT = oneFileState.ROOT ++ [newf] ∧
        newf.size = (oneFileState.ROOT.getD i default).size ∧
        (∀ u, u ∈ entryUnits c6Pair.1.FAT newf →
          u ∈ entryUnits c6Pair.1.FAT (oneFileState.ROOT.getD i default) →
            False) ∧
        readChainLoop TOTAL_UAs newf.startUA c6Pair.1.FAT c6Pair.1.HDD =
          readChainLoop TOTAL_UAs (oneFileState.ROOT.getD i default).startUA
            c6Pair.1.FAT c6Pair.1.HDD ∧
        (readChainLoop TOTAL_UAs newf.startUA c6Pair.1.FAT
          c6Pair.1.HDD).isSome :=
  c6_duplicate 2 oneFileState "abcdefgh".toList "txt".toList "copy".toList
    "txt".toList c6Pair WF_oneFileState
    (by rw [show oneFileState.HDD = initState.HDD from rfl]; exact initHDD_length)
    c6_copy_eval rfl

/-! ### C6 counterexample: on a shrunk buffer, COPY is not byte-identical

The C4 defect means reachable buffers are shorter than `HDD_SIZE` (each
partial-final-block write shrinks the `bytearray`, and DELETE never
restores it).  `ceState` is such a state in miniature: the buffer is 9268
bytes long, and the live 20-byte file `b.b` occupies units 578–579, whose
byte ranges sit at the buffer's edge (unit 579's range `[9264, 9280)`
extends 12 bytes past the end, so its read clamps to 4 bytes).  Units 576
and 577 are free, so the COPY lands just below the source; its final
4-byte write into unit 577 shrinks the buffer to 9256 bytes and shifts
every byte from offset 9236 onward — including the source's blocks. -/

def ceState : State :=
  { FAT := (initFAT.set 578 579).set 579 EOF
    ROOT := [File.make "b".toList "b".toList 20 578 0]
    HDD := List.replicate 9268 0 }

theorem ceFAT_length : ceState.FAT.length = TOTAL_UAs := by
  rw [show ceState.FAT = (initFAT.set 578 579).set 579 EOF from rfl,
    List.length_set, List.length_set, initFAT_length]

theorem ceFAT_getD_576 : ceState.FAT.getD 576 BAD = FREE := by
  rw [show ceState.FAT = (initFAT.set 578 579).set 579 EOF from rfl,
    List.getD_eq_getElem?_getD,
    List.getElem?_set_ne (show (579 : Nat) ≠ 576 by decide),
    List.getElem?_set_ne (show (578 : Nat) ≠ 576 by decide),
    ← List.getD_eq_getElem?_getD, initFAT_getD]
  decide

theorem ceFAT_getD_577 : ceState.FAT.getD 577 BAD = FREE := by
  rw [show ceState.FAT = (initFAT.set 578 579).set 579 EOF from rfl,
    List.getD_eq_getElem?_getD,
    List.getElem?_set_ne (show (579 : Nat) ≠ 577 by decide),
    List.getElem?_set_ne (show (578 : Nat) ≠ 577 by decide),
    ← List.getD_eq_getElem?_getD, initFAT_getD]
  decide

theorem ceFAT_getD_578 : ceState.FAT.getD 578 FREE = 579 := by
  rw [show ceState.FAT = (initFAT.set 578 579).set 579 EOF from rfl,
    List.getD_eq_getElem?_getD,
    List.getElem?_set_ne (show (579 : Nat) ≠ 578 by decide),
    List.getElem?_set_self (by rw [initFAT_length]; decide)]
  rfl

theorem ceFAT_getD_579 : ceState.FAT.getD 579 FREE = EOF := by
  rw [show ceState.FAT = (initFAT.set 578 579).set 579 EOF from rfl,
    List.getD_eq_getElem?_getD,
    List.getElem?_set_self (by rw [List.length_set, initFAT_length]; decide)]
  rfl

theorem ceFindFree :
    findFreeUAs ceState.FAT = 576 :: 577 :: List.range' 580 3516 := by
  rw [show findFreeUAs ceState.FAT =
    List.filter (fun i => ceState.FAT.getD i BAD == FREE)
      (576 :: 577 :: 578 :: 579 :: List.range' 580 3516) from rfl]
  have hp576 : (ceState.FAT.getD 576 BAD == FREE) = true := by
    rw [ceFAT_getD_576]
    decide
  have hp577 : (ceState.FAT.getD 577 BAD == FREE) = true := by
    rw [ceFAT_getD_577]
    decide
  have hp578 : ¬ ((ceState.FAT.getD 578 BAD == FREE) = true) := by
    rw [getD_of_lt (by rw [ceFAT_length]; decide) BAD FREE, ceFAT_getD_578]
    decide
  have hp579 : ¬ ((ceState.FAT.getD 579 BAD == FREE) = true) := by
    rw [getD_of_lt (by rw [ceFAT_length]; decide) BAD FREE, ceFAT_getD_579]
    decide
  rw [@List.filter_cons_of_pos Nat (fun i => ceState.FAT.getD i BAD == FREE)
      576 (577 :: 578 :: 579 :: List.range' 580 3516) hp576,
    @List.filter_cons_of_pos Nat (fun i => ceState.FAT.getD i BAD == FREE)
      577 (578 :: 579 :: List.range' 580 3516) hp577,
    @List.filter_cons_of_neg Nat (fun i => ceState.FAT.getD i BAD == FREE)
      578 (579 :: List.range' 580 3516) hp578,
    @List.filter_cons_of_neg Nat (fun i => ceState.FAT.getD i BAD == FREE)
      579 (List.range' 580 3516) hp579,
    List.filter_eq_self.mpr]
  intro a ha
  rcases List.mem_range'.mp ha with ⟨j, hj, rfl⟩
  show (ceState.FAT.getD (580 + 1 * j) BAD == FREE) = true
  rw [show ceState.FAT = (initFAT.set 578 579).set 579 EOF from rfl,
    List.getD_eq_getElem?_getD,
    List.getElem?_set_ne (show (579 : Nat) ≠ 580 + 1 * j by omega),
    List.getElem?_set_ne (show (578 : Nat) ≠ 580 + 1 * j by omega),
    ← List.getD_eq_getElem?_getD, initFAT_getD]
  simp only [UAs_for_FAT, UAs_for_ROOT, TOTAL_UAs]
  rw [if_neg (by omega), if_neg (by omega), if_pos (by omega)]
  decide

theorem WF_ceState : WF ceState := by
  have hunits : entryUnits ceState.FAT
      (File.make "b".toList "b".toList 20 578 0) = [578, 579] := by
    rw [show entryUnits ceState.FAT (File.make "b".toList "b".toList 20 578 0)
      = [578, ceState.FAT.getD 578 FREE] from rfl, ceFAT_getD_578]
  refine ⟨ceFAT_length, ?_, ?_⟩
  · intro f hf
    rw [show ceState.ROOT =
      [File.make "b".toList "b".toList 20 578 0] from rfl] at hf
    rcases List.mem_singleton.mp hf with rfl
    refine ⟨by decide, by decide, ?_, ?_, ?_⟩
    · rw [hunits]
      intro u hu
      rcases List.mem_cons.mp hu with rfl | hu2
      · decide
      · rcases List.mem_singleton.mp hu2 with rfl
        decide
    · rw [hunits]
      decide
    · rw [hunits, show ([578, 579] : List Nat).getLastD 0 = 579 from rfl]
      exact ceFAT_getD_579
  · rw [show ceState.ROOT =
      [File.make "b".toList "b".toList 20 578 0] from rfl]
    exact List.pairwise_singleton _ _

/-- The 20 bytes the COPY's read loop collects from `b.b`'s chain (unit
579's block clamps to 4 bytes at the buffer's edge). -/
def ceContent : List Nat :=
  (([578, 579] : List Nat).map
    (fun x => pySlice ceState.HDD (x * UA) (x * UA + UA))).flatten

/-- The new entry a successful `COPY b.b c.c` appends on `ceState`. -/
def ceNew : File := File.make "c".toList "c".toList 20 576 0

/-- The state a successful `COPY b.b c.c` leaves behind on `ceState`: units
576–577 written and chained, and the second (4-byte) block write has shrunk
the buffer. -/
def cePost : State :=
  { FAT := (ceState.FAT.set 576 577).set 577 EOF
    ROOT := ceState.ROOT ++ [ceNew]
    HDD := sliceAssign (sliceAssign ceState.HDD 9216 9232
      (pySlice ceContent 0 16)) 9232 9248 (pySlice ceContent 16 32) }

theorem ce_copy_eval :
    handleCOPY 3 ceState "b".toList "b".toList "c".toList "c".toList =
      some (cePost, Result.ok) := by
  have hidx : findFileIndex ceState.ROOT "b".toList "b".toList = some 0 := by
    decide
  have hdst : ¬ ((findFileIndex ceState.ROOT "c".toList
      "c".toList).isSome = true) := by decide
  have hg578 : ceState.FAT.get? 578 = some 579 := by
    rw [get?_eq_some_getD FREE (by rw [ceFAT_length]; decide), ceFAT_getD_578]
  have hg579 : ceState.FAT.get? 579 = some EOF := by
    rw [get?_eq_some_getD FREE (by rw [ceFAT_length]; decide), ceFAT_getD_579]
  have hlinks : Links ceState.FAT [578, 579] := ⟨hg578, hg579⟩
  have h0 := readChainLoop_spec [579] ceState.FAT ceState.HDD 578 hlinks
    (by decide) 3
  rw [if_pos (by decide)] at h0
  have hread : readChainLoop 3 (ceState.ROOT.getD 0 default).startUA
      ceState.FAT ceState.HDD = some ceContent := by
    rw [show (ceState.ROOT.getD 0 default).startUA = 578 from rfl]
    exact h0
  have hsp : ¬ (findFreeUAs ceState.FAT).length <
      ceilUAs (ceState.ROOT.getD 0 default).size := by
    rw [ceFindFree]
    simp only [List.length_cons, List.length_range']
    decide
  have h := handleCOPY_eval 3 ceState "b".toList "b".toList "c".toList
    "c".toList 0 ceContent hidx hdst hread hsp
  rw [h, show ceilUAs (ceState.ROOT.getD 0 default).size = 2 from rfl,
    ceFindFree]
  rfl

/-- C6 (counterexample to the claim as stated).  `ceState` is well-formed,
and `COPY b.b c.c` succeeds on it, appending the duplicate entry; but the
copy's short final write shrinks the buffer from 9268 to 9256 bytes and
shifts the source's blocks, so the duplicate's chain reads back 32 bytes
while the source's chain reads back only 8 — the stored contents are not
byte-for-byte identical.  Such shrunk-buffer states arise from ordinary
CREATEs via the C4 defect, which the spec's claim does not except. -/
theorem c6_duplicate_counterexample :
    WF ceState ∧
    handleCOPY 3 ceState "b".toList "b".toList "c".toList "c".toList =
      some (cePost, Result.ok) ∧
    cePost.ROOT = ceState.ROOT ++ [ceNew] ∧
    (readChainLoop TOTAL_UAs ceNew.startUA cePost.FAT cePost.HDD).isSome ∧
    (readChainLoop TOTAL_UAs (ceState.ROOT.getD 0 default).startUA cePost.FAT
      cePost.HDD).isSome ∧
    readChainLoop TOTAL_UAs ceNew.startUA cePost.FAT cePost.HDD ≠
      readChainLoop TOTAL_UAs (ceState.ROOT.getD 0 default).startUA cePost.FAT
        cePost.HDD := by
  have hFATpost : cePost.FAT = (ceState.FAT.set 576 577).set 577 EOF := rfl
  have hlen1 : 576 < ceState.FAT.length := by rw [ceFAT_length]; decide
  have hlen2 : 577 < (ceState.FAT.set 576 577).length := by
    rw [List.length_set, ceFAT_length]
    decide
  have hg576 : cePost.FAT.get? 576 = some 577 := by
    rw [hFATpost, get?_set_ne2 (show (577 : Nat) ≠ 576 by decide),
      get?_set_self_of_lt hlen1]
  have hg577 : cePost.FAT.get? 577 = some EOF := by
    rw [hFATpost, get?_set_self_of_lt hlen2]
  have hg578 : cePost.FAT.get? 578 = some 579 := by
    rw [hFATpost, get?_set_ne2 (show (577 : Nat) ≠ 578 by decide),
      get?_set_ne2 (show (576 : Nat) ≠ 578 by decide),
      get?_eq_some_getD FREE (by rw [ceFAT_length]; decide), ceFAT_getD_578]
  have hg579 : cePost.FAT.get? 579 = some EOF := by
    rw [hFATpost, get?_set_ne2 (show (577 : Nat) ≠ 579 by decide),
      get?_set_ne2 (show (576 : Nat) ≠ 579 by decide),
      get?_eq_some_getD FREE (by rw [ceFAT_length]; decide), ceFAT_getD_579]
  have hlinksD : Links cePost.FAT [576, 577] := ⟨hg576, hg577⟩
  have hlinksS : Links cePost.FAT [578, 579] := ⟨hg578, hg579⟩
  have hdr := readChainLoop_spec [577] cePost.FAT cePost.HDD 576 hlinksD
    (by decide) TOTAL_UAs
  have hsr := readChainLoop_spec [579] cePost.FAT cePost.HDD 578 hlinksS
    (by decide) TOTAL_UAs
  rw [if_pos (by decide)] at hdr
  rw [if_pos (by decide)] at hsr
  have hlenCE : ceState.HDD.length = 9268 := by
    rw [show ceState.HDD = List.replicate 9268 (0 : Nat) from rfl,
      List.length_replicate]
  have hc20 : ceContent.length = 20 := by
    rw [show ceContent = pySlice ceState.HDD (578 * UA) (578 * UA + UA) ++
      (pySlice ceState.HDD (579 * UA) (579 * UA + UA) ++ []) from rfl,
      List.length_append, List.length_append, List.length_nil,
      pySlice_length, pySlice_length, hlenCE]
    decide
  have hinner : (sliceAssign ceState.HDD 9216 9232
      (pySlice ceContent 0 16)).length = 9268 := by
    rw [sliceAssign_length 9232 (by rw [hlenCE]; decide) _, pySlice_length,
      hc20, hlenCE]
    decide
  have hpost : cePost.HDD.length = 9256 := by
    rw [show cePost.HDD = sliceAssign (sliceAssign ceState.HDD 9216 9232
        (pySlice ceContent 0 16)) 9232 9248 (pySlice ceContent 16 32) from rfl,
      sliceAssign_length 9248 (by rw [hinner]; decide) _, hinner,
      pySlice_length, hc20]
    decide
  have hdl : ((([576, 577] : List Nat).map (fun x => pySlice cePost.HDD
      (x * UA) (x * UA + UA))).flatten).length = 32 := by
    rw [show (([576, 577] : List Nat).map (fun x => pySlice cePost.HDD
        (x * UA) (x * UA + UA))).flatten = pySlice cePost.HDD (576 * UA)
        (576 * UA + UA) ++ (pySlice cePost.HDD (577 * UA) (577 * UA + UA) ++ [])
        from rfl,
      List.length_append, List.length_append, List.length_nil,
      pySlice_length, pySlice_length, hpost]
    decide
  have hsl : ((([578, 579] : List Nat).map (fun x => pySlice cePost.HDD
      (x * UA) (x * UA + UA))).flatten).length = 8 := by
    rw [show (([578, 579] : List Nat).map (fun x => pySlice cePost.HDD
        (x * UA) (x * UA + UA))).flatten = pySlice cePost.HDD (578 * UA)
        (578 * UA + UA) ++ (pySlice cePost.HDD (579 * UA) (579 * UA + UA) ++ [])
        from rfl,
      List.length_append, List.length_append, List.length_nil,
      pySlice_length, pySlice_length, hpost]
    decide
  refine ⟨WF_ceState, ce_copy_eval, rfl, ?_, ?_, ?_⟩
  · rw [show ceNew.startUA = 576 from rfl, hdr]
    rfl
  · rw [show (ceState.ROOT.getD 0 default).startUA = 578 from rfl, hsr]
    rfl
  · rw [show ceNew.startUA = 576 from rfl,
      show (ceState.ROOT.getD 0 default).startUA = 578 from rfl, hdr, hsr]
    intro h
    have h2 := congrArg List.length (Option.some.inj h)
    rw [hdl, hsl] at h2
    exact absurd h2 (by decide)

end PSO
